import Mathlib

/-! Taskgophers: a shallow embedding of `main.go`.

The program is a three-column kanban board (`Model`) with a two-field entry
form (`Form`), driven by the bubbletea event loop.

Conventions of the embedding.

* `status` is the Go type `type status int`; its values are integers and the
  three named constants are `todo = 0`, `inProgress = 1`, `done = 2`.
* A Go slice is a `List`; an indexing expression `xs[i]` that Go would abort
  with "index out of range" is `none` (`sliceGet`).  A function whose body can
  hit such an abort returns `Option`.
* `*Model` is a pointer.  `New()` is called once, in `main`, so the program has
  one `Model` object; the receiver `m`, the runtime's current model and
  `models[model]` all alias it.  It is the `board` cell of `World`.
  `Form.Update` has a value receiver: forms are plain values.
* The widgets of the terminal toolkit (`list.Model`, `textinput.Model`,
  `textarea.Model`) are not part of `main.go`.  They are represented by the
  state the program observes (items, filter and index; text and input focus)
  with the documented effect of the methods `main.go` calls.  What a widget does
  on its own is left open and is the parameter `Toolkit`: how a text field edits
  its text, and how a list widget sets its filter and its cursor in `Update` and
  after `RemoveItem`.
-/

namespace TaskGophers

/-! ## Constants and basic types -/

/-- Go: `const divisor = 3`. -/
def divisor : Int := 3

/-- Go: `type status int`. -/
abbrev status := Int

/-- Go: `todo status = iota`. -/
def todo : status := 0

/-- Go: `inProgress` (iota = 1). -/
def inProgress : status := 1

/-- Go: `done` (iota = 2). -/
def done : status := 2

/-- The value of a 64-bit signed Go `int` after an arithmetic step (wrap-around). -/
def wrapInt (x : Int) : Int := (x + 2 ^ 63) % 2 ^ 64 - 2 ^ 63

/-- Go slice indexing `xs[i]` with an `int` index: `none` is the runtime abort. -/
def sliceGet {α : Type} (xs : List α) (i : Int) : Option α :=
  if i < 0 then none else xs[i.toNat]?

/-- Go slice element assignment `xs[i] = x` (used only after `sliceGet` succeeded). -/
def sliceSet {α : Type} (xs : List α) (i : Int) (x : α) : List α :=
  xs.set i.toNat x

/-- Go: `type Task struct`. -/
structure Task where
  ID : Int
  title : String
  description : String
  status : status
deriving DecidableEq, Repr

/-- Go: `func (t *Task) Next()`. -/
def Task.Next (t : Task) : Task :=
  if t.status < done then
    { t with status := wrapInt (t.status + 1) }
  else
    { t with status := todo }

/-- Go: `func NewTask(status status, title, description string) Task`; `ID` is left at
its zero value. -/
def NewTask (status : status) (title description : String) : Task :=
  { ID := 0, title := title, description := description, status := status }

/-! ## Toolkit widgets -/

/-- The list widget `list.Model` as the program observes it: its title, all its items
(always `Task` values in this program), its filter (whether one is on, and the items it
matched), the index of the cursor among the visible items, and its size.  Filtering is
enabled in `list.New` and `main.go` never disables it. -/
structure list.Model where
  Title : String
  items : List Task
  filtering : Bool
  filteredItems : List Task
  index : Nat
  width : Int
  height : Int
deriving DecidableEq, Repr

/-- Toolkit: `list.New(items, delegate, width, height)` with an empty item slice: no
filter on, cursor on the first place. -/
def list.New (width height : Int) : list.Model :=
  { Title := "List", items := [], filtering := false, filteredItems := [], index := 0,
    width := width, height := height }

/-- Toolkit: `Items()`: all items, whatever the filter. -/
def list.Model.Items (l : list.Model) : List Task := l.items

/-- Toolkit: `VisibleItems()`: the matches while a filter is on, all items otherwise.  A
filter shows a selection of the items of the list, so never more than the list holds. -/
def list.Model.VisibleItems (l : list.Model) : List Task :=
  if l.filtering then l.filteredItems.take l.items.length else l.items

/-- Toolkit: `Index()`, the index of the selected item among the visible items. -/
def list.Model.Index (l : list.Model) : Nat := l.index

/-- Toolkit: `SelectedItem()`: the visible item under the index; `none` is Go's `nil`
(no visible item under the index). -/
def list.Model.SelectedItem (l : list.Model) : Option Task := l.VisibleItems[l.index]?

/-- Toolkit: `SetItems(items)`. -/
def list.Model.SetItems (l : list.Model) (items : List Task) : list.Model :=
  { l with items := items }

/-- Toolkit: `InsertItem(index, item)`; an index past the end appends. -/
def list.Model.InsertItem (l : list.Model) (index : Nat) (item : Task) : list.Model :=
  { l with items := l.items.take index ++ item :: l.items.drop index }

/-- The text widgets `textinput.Model` and `textarea.Model` as the program
observes them: the text and whether the widget holds input focus. -/
structure TextField where
  value : String
  focus : Bool
deriving DecidableEq, Repr

/-- Toolkit: `textinput.Model`. -/
abbrev textinput.Model := TextField

/-- Toolkit: `textarea.Model`. -/
abbrev textarea.Model := TextField

/-- Toolkit: `textinput.New()` / `textarea.New()`: empty, without input focus. -/
def TextField.New : TextField := { value := "", focus := false }

/-- Toolkit: `Focus()`. -/
def TextField.Focus (t : TextField) : TextField := { t with focus := true }

/-- Toolkit: `Blur()`. -/
def TextField.Blur (t : TextField) : TextField := { t with focus := false }

/-- Toolkit: `Focused()`. -/
def TextField.Focused (t : TextField) : Bool := t.focus

/-- Toolkit: `Value()`. -/
def TextField.Value (t : TextField) : String := t.value

/-! ## Messages, commands, models -/

/-- The `tea.Msg` values the program distinguishes: `nil`, a resize, a key (by its
`String()`), a `Task`, the matches of a filter run of a list widget
(`list.FilterMatchesMsg`), and any other message (toolkit-internal). -/
inductive Msg where
  | nil
  | WindowSizeMsg (Width Height : Int)
  | KeyMsg (key : String)
  | task (t : Task)
  | other (tag : Nat)
  | FilterMatchesMsg (found : List Task)
deriving DecidableEq, Repr

/-- The part of a list widget that only the widget's own code sets: the filter (on or
off, and its matches) and the cursor. -/
structure list.Nav where
  filtering : Bool
  filteredItems : List Task
  index : Nat
deriving DecidableEq, Repr

/-- The filter and cursor of a list widget. -/
def list.Model.nav (l : list.Model) : list.Nav :=
  { filtering := l.filtering, filteredItems := l.filteredItems, index := l.index }

/-- The list widget with its filter and cursor replaced. -/
def list.Model.setNav (l : list.Model) (n : list.Nav) : list.Model :=
  { l with filtering := n.filtering, filteredItems := n.filteredItems, index := n.index }

/-- What the toolkit widgets do on their own: the filter and cursor of a list widget
after a message handled by its `Update` (the key "/" starts a filter, a
`FilterMatchesMsg` brings its matches, other keys move the cursor), its filter and
cursor after `RemoveItem` (which drops a match and re-paginates), and how the text of a
focused text field changes on a message. -/
structure Toolkit where
  listUpdate : Msg → list.Model → list.Nav
  listRemove : Nat → list.Model → list.Nav
  inputEdit : Msg → String → String
  areaEdit : Msg → String → String

/-- Toolkit: `list.Model.Update(msg)`: the items stay; filter and cursor are the
widget's. -/
def list.Model.Update (tk : Toolkit) (l : list.Model) (msg : Msg) : list.Model :=
  l.setNav (tk.listUpdate msg l)

/-- Toolkit: `RemoveItem(index)`: the item at `index` among all items is removed (an
index past the end is a no-op); the widget then adjusts its matches and re-paginates,
which can move the cursor. -/
def list.Model.RemoveItem (tk : Toolkit) (l : list.Model) (index : Nat) : list.Model :=
  ({ l with items := l.items.eraseIdx index } : list.Model).setNav (tk.listRemove index l)

/-- Toolkit: `textinput.Model.Update(msg)`: a field without focus ignores the message. -/
def textinput.Update (tk : Toolkit) (t : textinput.Model) (msg : Msg) : textinput.Model :=
  if t.focus then { t with value := tk.inputEdit msg t.value } else t

/-- Toolkit: `textarea.Model.Update(msg)`: a field without focus ignores the message. -/
def textarea.Update (tk : Toolkit) (t : textarea.Model) (msg : Msg) : textarea.Model :=
  if t.focus then { t with value := tk.areaEdit msg t.value } else t

/-- Go: `type Form struct`. -/
structure Form where
  focused : status
  title : textinput.Model
  description : textarea.Model
deriving DecidableEq, Repr

/-- Go: `type Model struct`. -/
structure Model where
  focused : status
  lists : List list.Model
  err : Option String
  loaded : Bool
  quitting : Bool
deriving DecidableEq, Repr

/-- The `tea.Cmd` values the program returns: `nil`, `tea.Quit`, the method value
`m.MoveToNext`, the method value `f.CreateTask` (bound to a copy of `f`),
`textarea.Blink`, and a command handed up by a toolkit widget (possibly `nil`). -/
inductive Cmd where
  | nil
  | Quit
  | MoveToNext
  | CreateTask (f : Form)
  | Blink
  | widget
deriving DecidableEq, Repr

/-- The `tea.Model` values of the program: the pointer to the board, or a form value. -/
inductive TeaModel where
  | board
  | form (f : Form)
deriving DecidableEq, Repr

/-- The mutable state outside the runtime: the `Model` object behind every `*Model`
(also `models[model]`) and the content of `models[form]`. -/
structure World where
  board : Model
  formSlot : Form
deriving DecidableEq, Repr

/-! ## The board -/

/-- Go: `func New() *Model`: the zero `Model` (no lists yet). -/
def New : Model :=
  { focused := 0, lists := [], err := none, loaded := false, quitting := false }

/-- The three item slices that `initList` installs. -/
def initialToDo : List Task :=
  [ { ID := 1, title := "Write documentation",
      description := "Write documentation for the project", status := todo },
    { ID := 2, title := "Implement feature X",
      description := "Implement feature X according to the specification", status := todo },
    { ID := 3, title := "Fix bug Y",
      description := "Fix bug Y that causes the application to crash", status := todo } ]

/-- Items of the In Progress column after `initList`. -/
def initialInProgress : List Task :=
  [ { ID := 1, title := "In progress", description := "In progress", status := inProgress } ]

/-- Items of the Done column after `initList`. -/
def initialDone : List Task :=
  [ { ID := 1, title := "Done", description := "Done", status := done } ]

/-- Go: `func (m *Model) initList(width, height int)`. -/
def Model.initList (m : Model) (width height : Int) : Model :=
  let defaultList := list.New (Int.tdiv width divisor) (wrapInt (height - divisor))
  { m with
    lists :=
      [ ({ defaultList with Title := "To Do" } : list.Model).SetItems initialToDo,
        ({ defaultList with Title := "In Progress" } : list.Model).SetItems initialInProgress,
        ({ defaultList with Title := "Done" } : list.Model).SetItems initialDone ],
    loaded := true }

/-- Go: `func (m *Model) Next()`. -/
def Model.Next (m : Model) : Model :=
  if m.focused = done then
    { m with focused := todo }
  else
    { m with focused := wrapInt (m.focused + 1) }

/-- Go: `func (m *Model) Previous()`. -/
def Model.Previous (m : Model) : Model :=
  if m.focused > todo then
    { m with focused := wrapInt (m.focused - 1) }
  else
    { m with focused := done }

/-- Go: `func (m *Model) MoveToNext() tea.Msg`.  The returned message is always `nil`;
the result is the board after the call, `none` when an index is out of range. -/
def Model.MoveToNext (tk : Toolkit) (m : Model) : Option Model :=
  match sliceGet m.lists m.focused with
  | none => none
  | some focusedList =>
    match focusedList.SelectedItem with
    | none => some m
    | some selectedTask =>
      match sliceGet m.lists selectedTask.status with
      | none => none
      | some source =>
        let lists1 :=
          sliceSet m.lists selectedTask.status (source.RemoveItem tk focusedList.Index)
        let selectedTask := selectedTask.Next
        match sliceGet lists1 selectedTask.status with
        | none => none
        | some target =>
          some { m with
            lists := sliceSet lists1 selectedTask.status
              (target.InsertItem target.Items.length selectedTask) }

/-! ## The form -/

/-- Go: `func NewForm(focused status) *Form`. -/
def NewForm (focused : status) : Form :=
  { focused := focused, title := TextField.New.Focus, description := TextField.New }

/-- Go: `func (f Form) CreateTask() tea.Msg`. -/
def Form.CreateTask (f : Form) : Task :=
  NewTask f.focused f.title.Value f.description.Value

/-- Go: the tail of `Form.Update` after the `switch`: the message goes to the field
that holds input focus. -/
def Form.forward (tk : Toolkit) (f : Form) (msg : Msg) : Form :=
  if f.title.Focused then
    { f with title := textinput.Update tk f.title msg }
  else
    { f with description := textarea.Update tk f.description msg }

/-- Go: `func (f Form) Update(msg tea.Msg) (tea.Model, tea.Cmd)`.  The result is the
world (it writes `models[form]`), the returned model and the returned command. -/
def Form.Update (tk : Toolkit) (f : Form) (w : World) (msg : Msg) : World × TeaModel × Cmd :=
  match msg with
  | Msg.KeyMsg key =>
    if key = "ctrl+c" ∨ key = "q" then
      (w, TeaModel.form f, Cmd.Quit)
    else if key = "enter" then
      if f.title.Focused then
        (w, TeaModel.form { f with title := f.title.Blur, description := f.description.Focus },
          Cmd.Blink)
      else
        ({ w with formSlot := f }, TeaModel.board, Cmd.CreateTask f)
    else
      (w, TeaModel.form (Form.forward tk f msg), Cmd.widget)
  | _ => (w, TeaModel.form (Form.forward tk f msg), Cmd.widget)

/-! ## The board's event handler -/

/-- Go: the tail of `Model.Update` after the `switch`:
`m.lists[m.focused], cmd = m.lists[m.focused].Update(msg)`. -/
def Model.updateFocused (tk : Toolkit) (m : Model) (msg : Msg) : Option Model :=
  match sliceGet m.lists m.focused with
  | none => none
  | some focusedList =>
    some { m with lists := sliceSet m.lists m.focused (focusedList.Update tk msg) }

/-- Go: `func (m *Model) Update(msg tea.Msg) (tea.Model, tea.Cmd)`.  The receiver is
the board of the world; `none` is a runtime abort. -/
def Model.Update (tk : Toolkit) (w : World) (msg : Msg) : Option (World × TeaModel × Cmd) :=
  let m := w.board
  match msg with
  | Msg.WindowSizeMsg Width Height =>
    (Model.updateFocused tk (m.initList Width Height) msg).map
      fun m1 => ({ w with board := m1 }, TeaModel.board, Cmd.widget)
  | Msg.KeyMsg key =>
    if key = "ctrl+c" ∨ key = "q" then
      some ({ w with board := { m with quitting := true } }, TeaModel.board, Cmd.Quit)
    else if key = "left" ∨ key = "h" then
      (Model.updateFocused tk m.Previous msg).map
        fun m1 => ({ w with board := m1 }, TeaModel.board, Cmd.widget)
    else if key = "right" ∨ key = "l" then
      (Model.updateFocused tk m.Next msg).map
        fun m1 => ({ w with board := m1 }, TeaModel.board, Cmd.widget)
    else if key = "enter" then
      some (w, TeaModel.board, Cmd.MoveToNext)
    else if key = "n" then
      some (Form.Update tk (NewForm m.focused) { w with formSlot := NewForm m.focused } Msg.nil)
    else
      (Model.updateFocused tk m msg).map
        fun m1 => ({ w with board := m1 }, TeaModel.board, Cmd.widget)
  | Msg.task task =>
    match sliceGet m.lists task.status with
    | none => none
    | some target =>
      some ({ w with board := { m with
                lists := sliceSet m.lists task.status
                  (target.InsertItem target.Items.length task) } },
            TeaModel.board, Cmd.widget)
  | _ =>
    (Model.updateFocused tk m msg).map
      fun m1 => ({ w with board := m1 }, TeaModel.board, Cmd.widget)

/-! ## The runtime -/

/-- The bubbletea program: the world and the runtime's current model. -/
structure Program where
  world : World
  current : TeaModel
deriving DecidableEq, Repr

/-- Go: `main` up to `p.Run()`: `models = []tea.Model{New(), NewForm(todo)}` and the
board is the current model. -/
def Program.start : Program :=
  { world := { board := New, formSlot := NewForm todo }, current := TeaModel.board }

/-- One turn of the event loop: `model, cmd = model.Update(msg)`. -/
def Program.Update (tk : Toolkit) (p : Program) (msg : Msg) : Option (Program × Cmd) :=
  match p.current with
  | TeaModel.board =>
    (Model.Update tk p.world msg).map fun r => ({ world := r.1, current := r.2.1 }, r.2.2)
  | TeaModel.form f =>
    let r := Form.Update tk f p.world msg
    some ({ world := r.1, current := r.2.1 }, r.2.2)

/-- The event loop on a sequence of messages, in arrival order (returned commands are
not run); `none` is a runtime abort. -/
def Program.feed (tk : Toolkit) : Program → List Msg → Option Program
  | p, [] => some p
  | p, msg :: rest =>
    match Program.Update tk p msg with
    | none => none
    | some r => Program.feed tk r.1 rest

/-- The form after it has handled the messages `msgs` through `Form.Update`, one after
the other; once `Form.Update` returns the board the form is complete and handles no
further message. -/
def Form.feed (tk : Toolkit) (w : World) : Form → List Msg → Form
  | f, [] => f
  | f, msg :: rest =>
    match (Form.Update tk f w msg).2.1 with
    | TeaModel.form g => Form.feed tk w g rest
    | TeaModel.board => f

/-- The runtime executing a command: the world afterwards and the message the command
yields.  The method value `m.MoveToNext` is bound to the pointer `m`, so it runs on the
board as it is when the command is executed, and yields `nil`; `f.CreateTask` yields the
task of the form it was bound to; the remaining commands belong to the toolkit and
yield messages of the toolkit.  `none` is a runtime abort. -/
def Cmd.run (tk : Toolkit) (c : Cmd) (w : World) : Option (World × Msg) :=
  match c with
  | Cmd.MoveToNext => (w.board.MoveToNext tk).map fun b => ({ w with board := b }, Msg.nil)
  | Cmd.CreateTask f => some (w, Msg.task f.CreateTask)
  | Cmd.nil => some (w, Msg.nil)
  | Cmd.Quit => some (w, Msg.other 0)
  | Cmd.Blink => some (w, Msg.other 1)
  | Cmd.widget => some (w, Msg.other 2)

/-- The name (`String()`) of the key that types the character `c`: "enter" for a line
break, "tab", "esc" and "backspace" for those, "ctrl+" with a letter or sign for the
other control characters, and the character itself for every other character. -/
def keyOf (c : Char) : String :=
  if c.toNat = 10 ∨ c.toNat = 13 then "enter"
  else if c.toNat = 9 then "tab"
  else if c.toNat = 27 then "esc"
  else if c.toNat = 127 then "backspace"
  else if 1 ≤ c.toNat ∧ c.toNat ≤ 26 then "ctrl+" ++ String.singleton (Char.ofNat (c.toNat + 96))
  else if c.toNat < 32 then "ctrl+" ++ String.singleton (Char.ofNat (c.toNat + 64))
  else String.singleton c

/-- The key messages of typing the text `s`, one key per character. -/
def keystrokes (s : String) : List Msg :=
  s.data.map fun c => Msg.KeyMsg (keyOf c)

/-- One key handled by the event loop, the command it returns executed right after when
it is one of the program's own (`m.MoveToNext`, `f.CreateTask`), and the `Task` message
of `f.CreateTask` delivered; commands of the toolkit are not run. -/
def Program.press (tk : Toolkit) (p : Program) (key : String) : Option Program :=
  match Program.Update tk p (Msg.KeyMsg key) with
  | none => none
  | some (p1, Cmd.MoveToNext) =>
    (Cmd.run tk Cmd.MoveToNext p1.world).map fun r => { p1 with world := r.1 }
  | some (p1, Cmd.CreateTask f) =>
    (Program.Update tk p1 (Msg.task f.CreateTask)).map fun r => r.1
  | some (p1, _) => some p1

/-- The items of the three columns, in column order. -/
def Model.columns (m : Model) : List (List Task) := m.lists.map list.Model.Items

/-! ## Vocabulary of the properties -/

/-- The column after `s` in the cyclic order todo, inProgress, done, todo. -/
def cyclicNext (s : status) : status := (s + 1) % 3

/-- The column before `s` in the cyclic order. -/
def cyclicPrev (s : status) : status := (s + 2) % 3

/-- The value `s` is one of the three column kinds. -/
def validStatus (s : status) : Prop := s = todo ∨ s = inProgress ∨ s = done

instance (s : status) : Decidable (validStatus s) := by
  unfold validStatus; infer_instance

/-- Location invariant: every task stored in column `k` has status field `k`. -/
def Model.Located (m : Model) : Prop :=
  ∀ (k : Nat) (l : list.Model), m.lists[k]? = some l → ∀ t ∈ l.items, t.status = (k : Int)

/-- The board has its three columns. -/
def Model.threeColumns (m : Model) : Prop := m.lists.length = 3

instance (m : Model) : Decidable m.threeColumns := by
  unfold Model.threeColumns; infer_instance

/-- The board of end-to-end scenario A: the columns as `initList` fills them on an
80 x 24 terminal, focus on To Do, first item selected. -/
def scenarioA : Model := New.initList 80 24

/-- The task T1 of scenario A, the first item of To Do. -/
def taskT1 : Task :=
  { ID := 1, title := "Write documentation",
    description := "Write documentation for the project", status := todo }

/-- The items of column `k` (empty when there is no such column). -/
def Model.column (m : Model) (k : status) : List Task :=
  match sliceGet m.lists k with
  | some l => l.Items
  | none => []

/-- The sum of the task counts of the columns. -/
def Model.taskCount (m : Model) : Nat := (m.lists.map fun l => l.Items.length).sum

/-- The invariant of a loaded board: three columns, a focus among the three column
kinds, and every task in the column named by its status. -/
def Model.Inv (m : Model) : Prop := m.threeColumns ∧ validStatus m.focused ∧ m.Located

/-- The boards the program can be in once `initList` has run: the board built by
`initList` from `New()`, closed under `Next`, `Previous`, a completed `MoveToNext`, and a
completed `Model.Update` on any message (a `Task` message among them). -/
inductive Model.Reachable (tk : Toolkit) : Model → Prop where
  | init (width height : Int) : Model.Reachable tk (New.initList width height)
  | next {m : Model} : Model.Reachable tk m → Model.Reachable tk m.Next
  | previous {m : Model} : Model.Reachable tk m → Model.Reachable tk m.Previous
  | moveToNext {m m' : Model} :
      Model.Reachable tk m → m.MoveToNext tk = some m' → Model.Reachable tk m'
  | update {m : Model} {slot : Form} {msg : Msg} {r : World × TeaModel × Cmd} :
      Model.Reachable tk m → Model.Update tk ⟨m, slot⟩ msg = some r →
      Model.Reachable tk r.1.board

/-- Text editing used to evaluate examples: a key whose name is one character is
appended to the text, backspace removes the last character, anything else leaves the
text as it is. -/
def typing (msg : Msg) (s : String) : String :=
  match msg with
  | Msg.KeyMsg key =>
    if key.length = 1 then s ++ key
    else if key = "backspace" then String.mk s.data.dropLast
    else s
  | _ => s

/-- A toolkit used to evaluate examples.  List widget: "/" starts a filter that shows
every item, with the cursor on the first; a `FilterMatchesMsg` brings the matches; "esc"
ends the filter; "down"/"j" and "up"/"k" move the cursor by one within the visible
items; `RemoveItem` drops the match at the index, ends the filter when no match is left,
and puts a cursor that is out of range back on the first place.  Text fields edit by
`typing`. -/
def plainToolkit : Toolkit :=
  { listUpdate := fun msg l =>
      match msg with
      | Msg.KeyMsg key =>
        if key = "/" then
          (if l.filtering then l.nav
           else { filtering := true, filteredItems := l.items, index := 0 })
        else if key = "esc" then { filtering := false, filteredItems := [], index := l.index }
        else if key = "down" ∨ key = "j" then
          { l.nav with
            index := if l.index + 1 < l.VisibleItems.length then l.index + 1 else l.index }
        else if key = "up" ∨ key = "k" then { l.nav with index := l.index - 1 }
        else l.nav
      | Msg.FilterMatchesMsg found => { l.nav with filteredItems := found }
      | _ => l.nav,
    listRemove := fun index l =>
      let rest := l.filteredItems.eraseIdx index
      if l.filtering ∧ rest ≠ [] then
        { filtering := true, filteredItems := rest,
          index := if l.index < rest.length then l.index else 0 }
      else
        { filtering := false, filteredItems := [],
          index := if l.index < (l.items.eraseIdx index).length then l.index else 0 },
    inputEdit := typing,
    areaEdit := typing }

/-- The board of scenario A after `MoveToNext` has run on it. -/
def scenarioAMoved : Model := (scenarioA.MoveToNext plainToolkit).getD scenarioA

/-- The text is made of printable characters: no control character, so the key of each
character is named by the character. -/
def printable (s : String) : Prop := ∀ c ∈ s.data, 32 ≤ c.toNat ∧ c.toNat ≠ 127

instance (s : String) : Decidable (printable s) := by
  unfold printable; infer_instance

/-- The keys of the text are none that `Form.Update` handles itself ("q", "ctrl+c",
"enter"): the text has no character q and no line break. -/
def typable (s : String) : Prop :=
  ∀ c ∈ s.data, keyOf c ≠ "q" ∧ keyOf c ≠ "ctrl+c" ∧ keyOf c ≠ "enter"

instance (s : String) : Decidable (typable s) := by
  unfold typable; infer_instance

/-- The single-line text field enters the text `t` key by key: a `nil` message leaves
the empty field empty, and after any beginning of `t` the key of the next character
appends that character. -/
def Toolkit.entersTitle (tk : Toolkit) (t : String) : Prop :=
  tk.inputEdit Msg.nil "" = "" ∧
  ∀ (pre post : List Char) (c : Char), t.data = pre ++ c :: post →
    tk.inputEdit (Msg.KeyMsg (keyOf c)) (String.mk pre) = String.mk (pre ++ [c])

/-- The multi-line text field enters the text `d` key by key: after any beginning of
`d` the key of the next character appends that character. -/
def Toolkit.entersDescription (tk : Toolkit) (d : String) : Prop :=
  ∀ (pre post : List Char) (c : Char), d.data = pre ++ c :: post →
    tk.areaEdit (Msg.KeyMsg (keyOf c)) (String.mk pre) = String.mk (pre ++ [c])

/-- A world for examples: the board of scenario A, with the form slot as `main`
fills it. -/
def worldA : World := { board := scenarioA, formSlot := NewForm todo }

/-- A form in the description phase, as left by typing "Fix bug Z" and enter. -/
def describing : Form :=
  { focused := todo, title := ⟨"Fix bug Z", false⟩, description := ⟨"", true⟩ }

/-- The boards the program can be in from its start: `New()`, closed under a completed
`Model.Update` on any message (key, resize, `Task`, any other), a completed
`MoveToNext`, `Next` and `Previous`. -/
inductive Model.FromNew (tk : Toolkit) : Model → Prop where
  | start : Model.FromNew tk New
  | update {m : Model} {slot : Form} {msg : Msg} {r : World × TeaModel × Cmd} :
      Model.FromNew tk m → Model.Update tk ⟨m, slot⟩ msg = some r →
      Model.FromNew tk r.1.board
  | moveToNext {m m' : Model} :
      Model.FromNew tk m → m.MoveToNext tk = some m' → Model.FromNew tk m'
  | next {m : Model} : Model.FromNew tk m → Model.FromNew tk m.Next
  | previous {m : Model} : Model.FromNew tk m → Model.FromNew tk m.Previous

/-- All tasks on the board, column after column. -/
def Model.tasks (m : Model) : List Task := m.columns.flatten

/-- The task of scenario B, as `NewTask` builds it. -/
def taskB : Task := NewTask todo "Fix bug Z" "root cause X"

/-- The world after the task of scenario B has been delivered to the board of
scenario A. -/
def worldB : World :=
  ((Model.Update plainToolkit worldA (Msg.task taskB)).map fun r => r.1).getD worldA

/-- The IDs of all tasks on the board, column after column. -/
def Model.ids (m : Model) : List Int := m.tasks.map Task.ID

/-- No two tasks across the columns of the board have the same ID. -/
def Model.uniqueIDs (m : Model) : Prop := m.ids.Nodup

instance (m : Model) : Decidable m.uniqueIDs := by
  unfold Model.uniqueIDs; infer_instance

/-- The boards reachable from the initial board of `initList` by advancing tasks (a
completed `MoveToNext`), by delivering form-created tasks (a completed `Model.Update` on
a `Task` message built by `NewTask`) and by key messages (navigation and selection). -/
inductive Model.Grown (tk : Toolkit) : Model → Prop where
  | init (width height : Int) : Model.Grown tk (New.initList width height)
  | advance {m m' : Model} :
      Model.Grown tk m → m.MoveToNext tk = some m' → Model.Grown tk m'
  | deliver {m : Model} {slot : Form} {status : status} {title description : String}
      {r : World × TeaModel × Cmd} :
      Model.Grown tk m →
      Model.Update tk ⟨m, slot⟩ (Msg.task (NewTask status title description)) = some r →
      Model.Grown tk r.1.board
  | key {m : Model} {slot : Form} {key : String} {r : World × TeaModel × Cmd} :
      Model.Grown tk m → Model.Update tk ⟨m, slot⟩ (Msg.KeyMsg key) = some r →
      Model.Grown tk r.1.board

/-- The program once the first resize has been handled: the board of scenario A is the
current model. -/
def loadedProgram : Program := { world := worldA, current := TeaModel.board }

/-- The task T3 of the initial board, the last item of To Do. -/
def taskT3 : Task :=
  { ID := 3, title := "Fix bug Y",
    description := "Fix bug Y that causes the application to crash", status := todo }

/-- The task I1 of the initial board, the item of In Progress. -/
def taskI1 : Task :=
  { ID := 1, title := "In progress", description := "In progress", status := inProgress }

/-- The task D1 of the initial board, the item of Done. -/
def taskD1 : Task := { ID := 1, title := "Done", description := "Done", status := done }

/-- The program with a filter on To Do: after the first resize the keys "/" and "b" are
handled and the matches of the filter arrive; only the title of T3 has a b, so T3 is
the one visible item, under the cursor. -/
def filteredProgram : Option Program :=
  Program.feed plainToolkit loadedProgram
    [Msg.KeyMsg "/", Msg.KeyMsg "b", Msg.FilterMatchesMsg [taskT3]]

/-- The board of `filteredProgram`: the initial board with a filter on To Do whose one
match is T3, the cursor on it. -/
def filteredBoard : Model :=
  { focused := todo,
    lists :=
      [ { Title := "To Do", items := initialToDo, filtering := true,
          filteredItems := [taskT3], index := 0, width := 26, height := 21 },
        { Title := "In Progress", items := initialInProgress, filtering := false,
          filteredItems := [], index := 0, width := 26, height := 21 },
        { Title := "Done", items := initialDone, filtering := false,
          filteredItems := [], index := 0, width := 26, height := 21 } ],
    err := none, loaded := true, quitting := false }

/-- The program with I1 advanced to Done and a filter on Done: after the first resize
the key "l" moves focus to In Progress, "enter" advances I1, "l" moves focus to Done,
"/" and "p" start a filter, and its matches arrive; only the title of I1 has a p, so
I1 is the one visible item of Done, under the cursor, while D1 is first in the list. -/
def filteredDone : Option Program :=
  ((((Program.press plainToolkit loadedProgram "l").bind
      fun p => Program.press plainToolkit p "enter").bind
      fun p => Program.press plainToolkit p "l").bind
      fun p => Program.feed plainToolkit p
        [Msg.KeyMsg "/", Msg.KeyMsg "p",
          Msg.FilterMatchesMsg [{ taskI1 with status := done }]])

/-- The world at program start, as `main` sets it up. -/
def startWorld : World := Program.start.world

/-! ## Helper lemmas -/

theorem located_three (focused : status) (l0 l1 l2 : list.Model) (err : Option String)
    (loaded quitting : Bool) :
    Model.Located ⟨focused, [l0, l1, l2], err, loaded, quitting⟩ ↔
      (∀ t ∈ l0.items, t.status = 0) ∧ (∀ t ∈ l1.items, t.status = 1) ∧
        (∀ t ∈ l2.items, t.status = 2) := by
  constructor
  · intro h
    exact ⟨h 0 l0 rfl, h 1 l1 rfl, h 2 l2 rfl⟩
  · rintro ⟨h0, h1, h2⟩ k l hk
    match k, hk with
    | 0, hk => simp at hk; subst hk; simpa using h0
    | 1, hk => simp at hk; subst hk; simpa using h1
    | 2, hk => simp at hk; subst hk; simpa using h2
    | (k + 3), hk => simp at hk

theorem located_initList (m : Model) (width height : Int) :
    (m.initList width height).Located := by
  unfold Model.initList
  rw [located_three]
  simp [list.Model.SetItems, initialToDo, initialInProgress, initialDone, todo, inProgress, done]

/-- With no filter on, the selected item is the item under the index among all
items. -/
theorem selected_unfiltered (l : list.Model) (h : l.filtering = false) :
    l.SelectedItem = l.items[l.index]? := by
  simp [list.Model.SelectedItem, list.Model.VisibleItems, h]

/-- The index of a selected item is within the items of the list. -/
theorem selected_index_lt (l : list.Model) (t : Task) (h : l.SelectedItem = some t) :
    l.index < l.items.length := by
  unfold list.Model.SelectedItem list.Model.VisibleItems at h
  have hi := (List.getElem?_eq_some.mp h).1
  split at hi
  · rw [List.length_take] at hi
    omega
  · exact hi

/-- Computation of `MoveToNext` with focus on To Do and a selected task of status
todo. -/
theorem moveToNext_todo (tk : Toolkit) (l0 l1 l2 : list.Model) (err : Option String)
    (loaded quitting : Bool) (t : Task)
    (hsel : l0.SelectedItem = some t) (ht : t.status = 0) :
    Model.MoveToNext tk ⟨0, [l0, l1, l2], err, loaded, quitting⟩ =
      some ⟨0, [l0.RemoveItem tk l0.index,
                { l1 with items := l1.items ++ [{ t with status := 1 }] }, l2],
        err, loaded, quitting⟩ := by
  simp [Model.MoveToNext, sliceGet, sliceSet, done, hsel, ht,
    Task.Next, wrapInt, list.Model.InsertItem, list.Model.Items, list.Model.Index]

/-- Computation of `MoveToNext` with focus on In Progress and a selected task of status
inProgress. -/
theorem moveToNext_inProgress (tk : Toolkit) (l0 l1 l2 : list.Model) (err : Option String)
    (loaded quitting : Bool) (t : Task)
    (hsel : l1.SelectedItem = some t) (ht : t.status = 1) :
    Model.MoveToNext tk ⟨1, [l0, l1, l2], err, loaded, quitting⟩ =
      some ⟨1, [l0, l1.RemoveItem tk l1.index,
                { l2 with items := l2.items ++ [{ t with status := 2 }] }],
        err, loaded, quitting⟩ := by
  simp [Model.MoveToNext, sliceGet, sliceSet, done, hsel, ht,
    Task.Next, wrapInt, list.Model.InsertItem, list.Model.Items, list.Model.Index]

/-- Computation of `MoveToNext` with focus on Done and a selected task of status
done. -/
theorem moveToNext_done (tk : Toolkit) (l0 l1 l2 : list.Model) (err : Option String)
    (loaded quitting : Bool) (t : Task)
    (hsel : l2.SelectedItem = some t) (ht : t.status = 2) :
    Model.MoveToNext tk ⟨2, [l0, l1, l2], err, loaded, quitting⟩ =
      some ⟨2, [{ l0 with items := l0.items ++ [{ t with status := 0 }] }, l1,
                l2.RemoveItem tk l2.index],
        err, loaded, quitting⟩ := by
  simp [Model.MoveToNext, sliceGet, sliceSet, todo, done, hsel, ht,
    Task.Next, list.Model.InsertItem, list.Model.Items, list.Model.Index]

/-- Computation of `MoveToNext` when the focused list has no selected item: nothing
changes. -/
theorem moveToNext_none (tk : Toolkit) (m : Model) (fl : list.Model)
    (hfl : sliceGet m.lists m.focused = some fl) (hsel : fl.SelectedItem = none) :
    m.MoveToNext tk = some m := by
  simp [Model.MoveToNext, hfl, hsel]

theorem sliceGet_some {α : Type} (xs : List α) (k : Int) (x : α)
    (h : sliceGet xs k = some x) : 0 ≤ k ∧ xs[k.toNat]? = some x := by
  unfold sliceGet at h
  split at h
  · cases h
  · rename_i hk
    exact ⟨not_lt.mp hk, h⟩

/-- Replacing the list of column `k` by one whose items have status `k` keeps every task
in the column named by its status. -/
theorem located_sliceSet (lists : List list.Model) (k : Int) (x : list.Model) (hk : 0 ≤ k)
    (hloc : ∀ (n : Nat) (l : list.Model), lists[n]? = some l →
      ∀ t ∈ l.items, t.status = (n : Int))
    (hx : ∀ t ∈ x.items, t.status = k) :
    ∀ (n : Nat) (l : list.Model), (sliceSet lists k x)[n]? = some l →
      ∀ t ∈ l.items, t.status = (n : Int) := by
  intro n l h t ht
  unfold sliceSet at h
  rw [List.getElem?_set] at h
  split at h
  · rename_i hn
    split at h
    · cases h
      rw [hx t ht, ← hn]
      exact (Int.toNat_of_nonneg hk).symm
    · cases h
  · exact hloc n l h t ht

theorem inv_initList (m : Model) (width height : Int) (hfoc : validStatus m.focused) :
    (m.initList width height).Inv :=
  ⟨rfl, hfoc, located_initList m width height⟩

theorem Next_lists (m : Model) : m.Next.lists = m.lists := by
  unfold Model.Next; split <;> rfl

theorem Previous_lists (m : Model) : m.Previous.lists = m.lists := by
  unfold Model.Previous; split <;> rfl

theorem Next_focused (m : Model) (h : validStatus m.focused) :
    m.Next.focused = cyclicNext m.focused := by
  rcases h with h | h | h <;>
    simp [Model.Next, h, todo, inProgress, done, wrapInt, cyclicNext]

theorem Previous_focused (m : Model) (h : validStatus m.focused) :
    m.Previous.focused = cyclicPrev m.focused := by
  rcases h with h | h | h <;>
    simp [Model.Previous, h, todo, inProgress, done, wrapInt, cyclicPrev]

theorem validStatus_cyclicNext (s : status) (h : validStatus s) : validStatus (cyclicNext s) := by
  rcases h with h | h | h <;> simp [h, todo, inProgress, done, cyclicNext, validStatus]

theorem validStatus_cyclicPrev (s : status) (h : validStatus s) : validStatus (cyclicPrev s) := by
  rcases h with h | h | h <;> simp [h, todo, inProgress, done, cyclicPrev, validStatus]

theorem inv_Next (m : Model) (h : m.Inv) : m.Next.Inv := by
  obtain ⟨hlen, hfoc, hinv⟩ := h
  refine ⟨?_, ?_, ?_⟩
  · unfold Model.threeColumns; rw [Next_lists]; exact hlen
  · rw [Next_focused m hfoc]; exact validStatus_cyclicNext _ hfoc
  · unfold Model.Located; rw [Next_lists]; exact hinv

theorem inv_Previous (m : Model) (h : m.Inv) : m.Previous.Inv := by
  obtain ⟨hlen, hfoc, hinv⟩ := h
  refine ⟨?_, ?_, ?_⟩
  · unfold Model.threeColumns; rw [Previous_lists]; exact hlen
  · rw [Previous_focused m hfoc]; exact validStatus_cyclicPrev _ hfoc
  · unfold Model.Located; rw [Previous_lists]; exact hinv

/-- A completed `MoveToNext` keeps the invariant of a loaded board, whatever item is
selected and whatever the toolkit does to filter and cursor: the removal takes an item
out of a list, and the insertion goes to the list named by the status of the task. -/
theorem inv_MoveToNext (tk : Toolkit) (m m' : Model) (h : m.Inv)
    (hm : m.MoveToNext tk = some m') : m'.Inv := by
  obtain ⟨hlen, hfoc, hinv⟩ := h
  unfold Model.MoveToNext at hm
  cases hfl : sliceGet m.lists m.focused with
  | none => simp [hfl] at hm
  | some fl =>
    simp only [hfl] at hm
    cases hsel : fl.SelectedItem with
    | none =>
      simp only [hsel] at hm
      cases hm
      exact ⟨hlen, hfoc, hinv⟩
    | some t =>
      simp only [hsel] at hm
      cases hsrc : sliceGet m.lists t.status with
      | none => simp [hsrc] at hm
      | some source =>
        simp only [hsrc] at hm
        cases htg : sliceGet (sliceSet m.lists t.status (source.RemoveItem tk fl.Index))
            t.Next.status with
        | none => simp [htg] at hm
        | some target =>
          simp only [htg] at hm
          cases hm
          obtain ⟨hs0, hsget⟩ := sliceGet_some _ _ _ hsrc
          obtain ⟨ht0, htget⟩ := sliceGet_some _ _ _ htg
          have hloc1 := located_sliceSet m.lists t.status (source.RemoveItem tk fl.Index) hs0
            hinv (by
              intro u hu
              have hu' : u ∈ source.items := List.mem_of_mem_eraseIdx hu
              rw [hinv _ source hsget u hu']
              exact Int.toNat_of_nonneg hs0)
          refine ⟨?_, hfoc, ?_⟩
          · simp only [Model.threeColumns, sliceSet, List.length_set]
            exact hlen
          · refine located_sliceSet _ t.Next.status _ ht0 hloc1 ?_
            intro u hu
            simp only [list.Model.InsertItem, list.Model.Items, List.take_length,
              List.drop_length, List.mem_append, List.mem_singleton] at hu
            rcases hu with hu | hu
            · rw [hloc1 _ target htget u hu]
              exact Int.toNat_of_nonneg ht0
            · rw [hu]

theorem sliceGet_three {α : Type} (a b c x : α) (k : Int)
    (h : sliceGet [a, b, c] k = some x) :
    (k = 0 ∧ a = x) ∨ (k = 1 ∧ b = x) ∨ (k = 2 ∧ c = x) := by
  unfold sliceGet at h
  split at h
  · cases h
  · rename_i hk
    obtain ⟨n, rfl⟩ := Int.eq_ofNat_of_zero_le (not_lt.mp hk)
    simp only [Int.toNat_ofNat] at h
    match n, h with
    | 0, h => simp at h; exact Or.inl ⟨rfl, h⟩
    | 1, h => simp at h; exact Or.inr (Or.inl ⟨rfl, h⟩)
    | 2, h => simp at h; exact Or.inr (Or.inr ⟨rfl, h⟩)
    | (n + 3), h => simp at h

/-- On a loaded board the tail of `Model.Update` succeeds and touches only the cursor of
the focused list. -/
theorem updateFocused_spec (tk : Toolkit) (m : Model) (msg : Msg) (h : m.Inv) :
    ∃ m', m.updateFocused tk msg = some m' ∧ m'.Inv ∧ m'.focused = m.focused ∧
      m'.columns = m.columns ∧ m'.err = m.err ∧ m'.loaded = m.loaded ∧
      m'.quitting = m.quitting := by
  obtain ⟨hlen, hfoc, hinv⟩ := h
  obtain ⟨focused, lists, err, loaded, quitting⟩ := m
  obtain ⟨l0, l1, l2, rfl⟩ := List.length_eq_three.mp hlen
  simp only at hfoc
  rw [located_three] at hinv
  rcases hfoc with rfl | rfl | rfl
  · refine ⟨⟨todo, [l0.Update tk msg, l1, l2], err, loaded, quitting⟩, ?_, ⟨rfl, Or.inl rfl, ?_⟩,
      rfl, ?_, rfl, rfl, rfl⟩
    · simp [Model.updateFocused, sliceGet, sliceSet, todo]
    · rw [located_three]; exact hinv
    · simp [Model.columns, list.Model.Items, list.Model.Update, list.Model.setNav]
  · refine ⟨⟨inProgress, [l0, l1.Update tk msg, l2], err, loaded, quitting⟩, ?_,
      ⟨rfl, Or.inr (Or.inl rfl), ?_⟩, rfl, ?_, rfl, rfl, rfl⟩
    · simp [Model.updateFocused, sliceGet, sliceSet, inProgress]
    · rw [located_three]; exact hinv
    · simp [Model.columns, list.Model.Items, list.Model.Update, list.Model.setNav]
  · refine ⟨⟨done, [l0, l1, l2.Update tk msg], err, loaded, quitting⟩, ?_,
      ⟨rfl, Or.inr (Or.inr rfl), ?_⟩, rfl, ?_, rfl, rfl, rfl⟩
    · simp [Model.updateFocused, sliceGet, sliceSet, done]
    · rw [located_three]; exact hinv
    · simp [Model.columns, list.Model.Items, list.Model.Update, list.Model.setNav]

theorem inv_updateFocused (tk : Toolkit) (m m' : Model) (msg : Msg) (h : m.Inv)
    (hm : m.updateFocused tk msg = some m') : m'.Inv := by
  obtain ⟨m2, h2, hinv, _⟩ := updateFocused_spec tk m msg h
  rw [h2] at hm
  cases hm
  exact hinv

/-- Effect of `Model.Update` on a `Task` message whose status names a column of a three-column
board: the task is appended to that column. -/
theorem update_task_spec (tk : Toolkit) (m : Model) (slot : Form) (t : Task)
    (r : World × TeaModel × Cmd) (hlen : m.threeColumns)
    (hr : Model.Update tk ⟨m, slot⟩ (Msg.task t) = some r) :
    validStatus t.status ∧ m.lists.length = 3 ∧ r.2.1 = TeaModel.board ∧
      r.1.formSlot = slot ∧
      ∃ l0 l1 l2, m.lists = [l0, l1, l2] ∧
        r.1.board = { m with lists :=
          if t.status = 0 then [{ l0 with items := l0.items ++ [t] }, l1, l2]
          else if t.status = 1 then [l0, { l1 with items := l1.items ++ [t] }, l2]
          else [l0, l1, { l2 with items := l2.items ++ [t] }] } := by
  obtain ⟨focused, lists, err, loaded, quitting⟩ := m
  obtain ⟨l0, l1, l2, rfl⟩ := List.length_eq_three.mp hlen
  simp only [Model.Update] at hr
  cases hs : sliceGet [l0, l1, l2] t.status with
  | none => simp [hs] at hr
  | some target =>
    simp only [hs] at hr
    cases hr
    rcases sliceGet_three _ _ _ _ _ hs with ⟨hk, rfl⟩ | ⟨hk, rfl⟩ | ⟨hk, rfl⟩
    · refine ⟨Or.inl hk, rfl, rfl, rfl, l0, l1, l2, rfl, ?_⟩
      simp [hk, sliceSet, list.Model.InsertItem, list.Model.Items]
    · refine ⟨Or.inr (Or.inl hk), rfl, rfl, rfl, l0, l1, l2, rfl, ?_⟩
      simp [hk, sliceSet, list.Model.InsertItem, list.Model.Items]
    · refine ⟨Or.inr (Or.inr hk), rfl, rfl, rfl, l0, l1, l2, rfl, ?_⟩
      simp [hk, sliceSet, list.Model.InsertItem, list.Model.Items]

theorem inv_update_task (tk : Toolkit) (m : Model) (slot : Form) (t : Task)
    (r : World × TeaModel × Cmd) (h : m.Inv)
    (hr : Model.Update tk ⟨m, slot⟩ (Msg.task t) = some r) : r.1.board.Inv := by
  obtain ⟨hlen, hfoc, hinv⟩ := h
  obtain ⟨hst, -, -, -, l0, l1, l2, hl, hb⟩ := update_task_spec tk m slot t r hlen hr
  obtain ⟨focused, lists, err, loaded, quitting⟩ := m
  simp only at hl hb hfoc
  subst hl
  rw [located_three] at hinv
  obtain ⟨h0, h1, h2⟩ := hinv
  rw [hb]
  rcases hst with hs | hs | hs
  · simp only [hs, todo, if_true]
    refine ⟨rfl, hfoc, ?_⟩
    rw [located_three]
    refine ⟨?_, h1, h2⟩
    intro u hu
    rcases List.mem_append.mp hu with hu | hu
    · exact h0 u hu
    · simp at hu; subst hu; exact hs
  · simp only [hs, inProgress, if_true]
    refine ⟨rfl, hfoc, ?_⟩
    simp only [show ¬ ((1 : Int) = 0) by decide, if_false]
    rw [located_three]
    refine ⟨h0, ?_, h2⟩
    intro u hu
    rcases List.mem_append.mp hu with hu | hu
    · exact h1 u hu
    · simp at hu; subst hu; exact hs
  · simp only [hs, done]
    refine ⟨rfl, hfoc, ?_⟩
    simp only [show ¬ ((2 : Int) = 0) by decide, show ¬ ((2 : Int) = 1) by decide, if_false]
    rw [located_three]
    refine ⟨h0, h1, ?_⟩
    intro u hu
    rcases List.mem_append.mp hu with hu | hu
    · exact h2 u hu
    · simp at hu; subst hu; exact hs

theorem inv_quitting (m : Model) (h : m.Inv) : Model.Inv { m with quitting := true } := h

/-- Every completed `Model.Update` keeps the invariant of a loaded board. -/
theorem inv_Update (tk : Toolkit) (m : Model) (slot : Form) (msg : Msg)
    (r : World × TeaModel × Cmd) (h : m.Inv)
    (hr : Model.Update tk ⟨m, slot⟩ msg = some r) : r.1.board.Inv := by
  cases msg with
  | nil =>
    simp only [Model.Update] at hr
    obtain ⟨m1, hm1, rfl⟩ := Option.map_eq_some'.mp hr
    exact inv_updateFocused tk m m1 _ h hm1
  | WindowSizeMsg Width Height =>
    simp only [Model.Update] at hr
    obtain ⟨m1, hm1, rfl⟩ := Option.map_eq_some'.mp hr
    exact inv_updateFocused tk _ m1 _ (inv_initList m Width Height h.2.1) hm1
  | KeyMsg key =>
    simp only [Model.Update] at hr
    split_ifs at hr
    · cases hr; exact inv_quitting m h
    · obtain ⟨m1, hm1, rfl⟩ := Option.map_eq_some'.mp hr
      exact inv_updateFocused tk _ m1 _ (inv_Previous m h) hm1
    · obtain ⟨m1, hm1, rfl⟩ := Option.map_eq_some'.mp hr
      exact inv_updateFocused tk _ m1 _ (inv_Next m h) hm1
    · cases hr; exact h
    · cases hr; exact h
    · obtain ⟨m1, hm1, rfl⟩ := Option.map_eq_some'.mp hr
      exact inv_updateFocused tk m m1 _ h hm1
  | task t => exact inv_update_task tk m slot t r h hr
  | other tag =>
    simp only [Model.Update] at hr
    obtain ⟨m1, hm1, rfl⟩ := Option.map_eq_some'.mp hr
    exact inv_updateFocused tk m m1 _ h hm1
  | FilterMatchesMsg found =>
    simp only [Model.Update] at hr
    obtain ⟨m1, hm1, rfl⟩ := Option.map_eq_some'.mp hr
    exact inv_updateFocused tk m m1 _ h hm1

/-- Every reachable board satisfies the invariant of a loaded board. -/
theorem reachable_inv (tk : Toolkit) (m : Model) (h : Model.Reachable tk m) : m.Inv := by
  induction h with
  | init width height => exact inv_initList New width height (Or.inl rfl)
  | next _ ih => exact inv_Next _ ih
  | previous _ ih => exact inv_Previous _ ih
  | moveToNext _ hm ih => exact inv_MoveToNext tk _ _ ih hm
  | update _ hr ih => exact inv_Update tk _ _ _ _ ih hr

theorem sliceGet_sliceSet_ne {α : Type} (xs : List α) (i k : Int) (x : α) (hi : 0 ≤ i)
    (hne : k ≠ i) : sliceGet (sliceSet xs i x) k = sliceGet xs k := by
  unfold sliceGet sliceSet
  split
  · rfl
  · rename_i hk
    have hk0 : 0 ≤ k := not_lt.mp hk
    have : i.toNat ≠ k.toNat := by omega
    simp [List.getElem?_set_ne this]

/-- Effect of `MoveToNext` on a board with three columns whose selected item, if any,
is a task of the focused column: it completes, keeps the task count and focus, removes
the element at the index of the cursor from the focused column and appends the selected
task, with the next status, to the end of the next column. -/
theorem moveToNext_selected (tk : Toolkit) (m : Model) (fl : list.Model)
    (hlen : m.threeColumns) (hfoc : validStatus m.focused)
    (hfl : sliceGet m.lists m.focused = some fl)
    (hst : ∀ t, fl.SelectedItem = some t → t.status = m.focused) :
    ∃ m', m.MoveToNext tk = some m' ∧
      m'.taskCount = m.taskCount ∧ m'.focused = m.focused ∧
      ((fl.SelectedItem = none ∧ m' = m) ∨
       (∃ t, fl.SelectedItem = some t ∧
          m'.column m.focused = (m.column m.focused).eraseIdx fl.Index ∧
          (m'.column m.focused).length + 1 = (m.column m.focused).length ∧
          m'.column (cyclicNext m.focused) =
            m.column (cyclicNext m.focused) ++ [{ t with status := cyclicNext m.focused }] ∧
          m'.column (cyclicNext (cyclicNext m.focused)) =
            m.column (cyclicNext (cyclicNext m.focused)))) := by
  obtain ⟨focused, lists, err, loaded, quitting⟩ := m
  obtain ⟨l0, l1, l2, rfl⟩ := List.length_eq_three.mp hlen
  simp only at hfoc hfl hst
  rcases hfoc with rfl | rfl | rfl
  · simp [sliceGet, todo] at hfl
    subst hfl
    cases hsel : l0.SelectedItem with
    | none =>
      refine ⟨_, moveToNext_none tk _ l0 (by simp [sliceGet, todo]) hsel, ?_⟩
      simp
    | some t =>
      have ht : t.status = 0 := hst t hsel
      have hi : l0.index < l0.items.length := selected_index_lt l0 t hsel
      refine ⟨_, moveToNext_todo tk l0 l1 l2 err loaded quitting t hsel ht, ?_⟩
      simp [sliceGet, todo, Model.column, Model.taskCount,
        cyclicNext, list.Model.Items, list.Model.Index, list.Model.RemoveItem,
        list.Model.setNav, List.length_eraseIdx, hi]
      omega
  · simp [sliceGet, inProgress] at hfl
    subst hfl
    cases hsel : l1.SelectedItem with
    | none =>
      refine ⟨_, moveToNext_none tk _ l1 (by simp [sliceGet, inProgress]) hsel, ?_⟩
      simp
    | some t =>
      have ht : t.status = 1 := hst t hsel
      have hi : l1.index < l1.items.length := selected_index_lt l1 t hsel
      refine ⟨_, moveToNext_inProgress tk l0 l1 l2 err loaded quitting t hsel ht, ?_⟩
      simp [sliceGet, inProgress, Model.column, Model.taskCount,
        cyclicNext, list.Model.Items, list.Model.Index, list.Model.RemoveItem,
        list.Model.setNav, List.length_eraseIdx, hi]
      omega
  · simp [sliceGet, done] at hfl
    subst hfl
    cases hsel : l2.SelectedItem with
    | none =>
      refine ⟨_, moveToNext_none tk _ l2 (by simp [sliceGet, done]) hsel, ?_⟩
      simp
    | some t =>
      have ht : t.status = 2 := hst t hsel
      have hi : l2.index < l2.items.length := selected_index_lt l2 t hsel
      refine ⟨_, moveToNext_done tk l0 l1 l2 err loaded quitting t hsel ht, ?_⟩
      simp [sliceGet, done, Model.column, Model.taskCount,
        cyclicNext, list.Model.Items, list.Model.Index, list.Model.RemoveItem,
        list.Model.setNav, List.length_eraseIdx, hi]
      omega

/-- Effect of `MoveToNext` on a loaded board whose focused list has no filter on: it
completes, keeps the task count and focus, and moves the selected task, if any, from the
focused column to the end of the next one. -/
theorem moveToNext_unfiltered (tk : Toolkit) (m : Model) (fl : list.Model)
    (hlen : m.threeColumns) (hfoc : validStatus m.focused) (hinv : m.Located)
    (hfl : sliceGet m.lists m.focused = some fl) (hf : fl.filtering = false) :
    ∃ m', m.MoveToNext tk = some m' ∧
      m'.taskCount = m.taskCount ∧ m'.focused = m.focused ∧
      ((fl.items[fl.index]? = none ∧ m' = m) ∨
       (∃ t, fl.items[fl.index]? = some t ∧
          m'.column m.focused = (m.column m.focused).eraseIdx fl.Index ∧
          (m'.column m.focused).length + 1 = (m.column m.focused).length ∧
          m'.column (cyclicNext m.focused) =
            m.column (cyclicNext m.focused) ++ [{ t with status := cyclicNext m.focused }] ∧
          m'.column (cyclicNext (cyclicNext m.focused)) =
            m.column (cyclicNext (cyclicNext m.focused)))) := by
  have hst : ∀ t, fl.SelectedItem = some t → t.status = m.focused := by
    intro t ht
    rw [selected_unfiltered fl hf] at ht
    obtain ⟨hk, hget⟩ := sliceGet_some _ _ _ hfl
    have := hinv _ fl hget t (List.getElem?_mem ht)
    rw [this]
    exact Int.toNat_of_nonneg hk
  have h := moveToNext_selected tk m fl hlen hfoc hfl hst
  rw [selected_unfiltered fl hf] at h
  exact h

theorem filteredBoard_inv : filteredBoard.Inv :=
  ⟨rfl, Or.inl rfl, (located_three _ _ _ _ _ _ _).mpr ⟨by decide, by decide, by decide⟩⟩

/-! ## Theorems -/

/-- C1 (the code at the failing input): on the board of scenario A, without a filter,
`MoveToNext` does what the claim says: To Do = [T2, T3], In Progress = [I1, T1 with
status inProgress], Done = [D1].  With a filter on To Do (from the start of the program:
a resize, the keys "/" and "b", the matches arrive) every task is in the column of its
status, To Do holds [T1, T2, T3], and the selected item is T3, at index 0 of the
visible items; `MoveToNext` removes element 0 of all items, T1, and appends T3:
To Do = [T2, T3], In Progress = [I1, T3 with status inProgress]. -/
theorem MoveToNext_under_filter :
    (scenarioA.MoveToNext plainToolkit).map Model.columns =
      some [ initialToDo.tail,
             initialInProgress ++ [{ taskT1 with status := inProgress }],
             initialDone ] ∧
    Program.feed plainToolkit Program.start
        [Msg.WindowSizeMsg 80 24, Msg.KeyMsg "/", Msg.KeyMsg "b",
          Msg.FilterMatchesMsg [taskT3]] =
      some ⟨⟨filteredBoard, NewForm todo⟩, TeaModel.board⟩ ∧
    filteredProgram = some ⟨⟨filteredBoard, NewForm todo⟩, TeaModel.board⟩ ∧
    filteredBoard.threeColumns ∧ filteredBoard.Located ∧
    (sliceGet filteredBoard.lists filteredBoard.focused).map
        (fun l => (l.SelectedItem, l.Index, l.Items)) =
      some (some taskT3, 0, initialToDo) ∧
    (filteredBoard.MoveToNext plainToolkit).map Model.columns =
      some [ initialToDo.tail,
             initialInProgress ++ [{ taskT3 with status := inProgress }],
             initialDone ] ∧
    (filteredBoard.MoveToNext plainToolkit).map (fun m => decide (taskT3 ∈ m.column todo)) =
      some true ∧
    (filteredBoard.MoveToNext plainToolkit).map (fun m => decide (taskT1 ∈ m.column todo)) =
      some false :=
  ⟨by decide, by decide, by decide, by decide, filteredBoard_inv.2.2, by decide, by decide,
    by decide, by decide⟩

/-- C2 (the code at the failing input): the program handles its first resize, then the
keys "/" and "b", and the matches of the filter arrive: To Do shows only T3.  The key
"enter" and the command it returns leave the sum of the task counts at 5, but no task
has moved: T1 is gone from To Do and is in no column, T3 is still in To Do, and a copy
of T3 with status inProgress is the new last item of In Progress. -/
theorem MoveToNext_moves_none :
    Program.feed plainToolkit Program.start [Msg.WindowSizeMsg 80 24] = some loadedProgram ∧
    filteredProgram.map (fun p => p.world.board.taskCount) = some 5 ∧
    filteredProgram.map (fun p => decide (taskT1 ∈ p.world.board.column todo)) = some true ∧
    (filteredProgram.bind fun p => Program.press plainToolkit p "enter").map
        (fun p => p.world.board.taskCount) = some 5 ∧
    (filteredProgram.bind fun p => Program.press plainToolkit p "enter").map
        (fun p => decide (taskT1 ∈ p.world.board.tasks)) = some false ∧
    (filteredProgram.bind fun p => Program.press plainToolkit p "enter").map
        (fun p => decide (taskT3 ∈ p.world.board.column todo)) = some true ∧
    (filteredProgram.bind fun p => Program.press plainToolkit p "enter").map
        (fun p => p.world.board.columns) =
      some [ initialToDo.tail,
             initialInProgress ++ [{ taskT3 with status := inProgress }],
             initialDone ] := by
  decide

/-- C3: location invariant.  In every board state reachable from the board built by
`initList` through `Model.Next`, `Model.Previous`, `Model.MoveToNext` and `Model.Update`
(delivery of a `Task` message included), every task stored in column `k` has status
field `k`. -/
theorem reachable_located (tk : Toolkit) (m : Model) (h : Model.Reachable tk m) :
    ∀ (k : Nat) (l : list.Model), m.lists[k]? = some l → ∀ t ∈ l.items, t.status = (k : Int) :=
  (reachable_inv tk m h).2.2

/-- C3 (witness): the board of scenario A after `MoveToNext` is reachable, and each of
its tasks has the status of its column. -/
theorem reachable_located_witness :
    Model.Reachable plainToolkit scenarioAMoved ∧
    ∀ (k : Nat) (l : list.Model), scenarioAMoved.lists[k]? = some l →
      ∀ t ∈ l.items, t.status = (k : Int) :=
  ⟨Model.Reachable.moveToNext (Model.Reachable.init 80 24) (by decide),
    reachable_located plainToolkit scenarioAMoved
      (Model.Reachable.moveToNext (Model.Reachable.init 80 24) (by decide))⟩

/-- C4: for every focus among todo, inProgress, done, `Model.Next` sets focus to the
cyclic successor and `Model.Previous` to the cyclic predecessor; `Next` then `Previous`
and `Previous` then `Next` both give back the board; the new focus is again one of the
three kinds, and every kind is the `Next` (and the `Previous`) of exactly one kind. -/
theorem focus_cycle (m : Model) (h : validStatus m.focused) :
    (cyclicNext todo = inProgress ∧ cyclicNext inProgress = done ∧ cyclicNext done = todo) ∧
    (cyclicPrev todo = done ∧ cyclicPrev inProgress = todo ∧ cyclicPrev done = inProgress) ∧
    m.Next.focused = cyclicNext m.focused ∧
    m.Previous.focused = cyclicPrev m.focused ∧
    m.Next.Previous = m ∧ m.Previous.Next = m ∧
    validStatus m.Next.focused ∧ validStatus m.Previous.focused ∧
    (∀ s, validStatus s →
      ∃ f, validStatus f ∧ ({ m with focused := f } : Model).Next.focused = s ∧
        ∀ g, validStatus g → ({ m with focused := g } : Model).Next.focused = s → g = f) ∧
    (∀ s, validStatus s →
      ∃ f, validStatus f ∧ ({ m with focused := f } : Model).Previous.focused = s ∧
        ∀ g, validStatus g → ({ m with focused := g } : Model).Previous.focused = s → g = f) := by
  obtain ⟨focused, lists, err, loaded, quitting⟩ := m
  simp only at h
  refine ⟨by decide, by decide, ?_, ?_, ?_, ?_, ?_, ?_, ?_, ?_⟩
  · exact Next_focused _ h
  · exact Previous_focused _ h
  · rcases h with rfl | rfl | rfl <;>
      simp [Model.Next, Model.Previous, todo, inProgress, done, wrapInt]
  · rcases h with rfl | rfl | rfl <;>
      simp [Model.Next, Model.Previous, todo, inProgress, done, wrapInt]
  · rw [Next_focused _ h]; exact validStatus_cyclicNext _ h
  · rw [Previous_focused _ h]; exact validStatus_cyclicPrev _ h
  · intro s hs
    refine ⟨cyclicPrev s, validStatus_cyclicPrev s hs, ?_, ?_⟩
    · rcases hs with rfl | rfl | rfl <;>
        simp [Model.Next, todo, inProgress, done, wrapInt, cyclicPrev]
    · intro g hg
      rcases hs with rfl | rfl | rfl <;> rcases hg with rfl | rfl | rfl <;>
        simp [Model.Next, todo, inProgress, done, wrapInt, cyclicPrev]
  · intro s hs
    refine ⟨cyclicNext s, validStatus_cyclicNext s hs, ?_, ?_⟩
    · rcases hs with rfl | rfl | rfl <;>
        simp [Model.Previous, todo, inProgress, done, wrapInt, cyclicNext]
    · intro g hg
      rcases hs with rfl | rfl | rfl <;> rcases hg with rfl | rfl | rfl <;>
        simp [Model.Previous, todo, inProgress, done, wrapInt, cyclicNext]

/-- C4 (witness): the focus cycle on the board of scenario A (focus on To Do). -/
theorem focus_cycle_witness :
    validStatus scenarioA.focused ∧
    ((cyclicNext todo = inProgress ∧ cyclicNext inProgress = done ∧ cyclicNext done = todo) ∧
    (cyclicPrev todo = done ∧ cyclicPrev inProgress = todo ∧ cyclicPrev done = inProgress) ∧
    scenarioA.Next.focused = cyclicNext scenarioA.focused ∧
    scenarioA.Previous.focused = cyclicPrev scenarioA.focused ∧
    scenarioA.Next.Previous = scenarioA ∧ scenarioA.Previous.Next = scenarioA ∧
    validStatus scenarioA.Next.focused ∧ validStatus scenarioA.Previous.focused ∧
    (∀ s, validStatus s →
      ∃ f, validStatus f ∧ ({ scenarioA with focused := f } : Model).Next.focused = s ∧
        ∀ g, validStatus g → ({ scenarioA with focused := g } : Model).Next.focused = s →
          g = f) ∧
    (∀ s, validStatus s →
      ∃ f, validStatus f ∧ ({ scenarioA with focused := f } : Model).Previous.focused = s ∧
        ∀ g, validStatus g → ({ scenarioA with focused := g } : Model).Previous.focused = s →
          g = f)) :=
  ⟨by decide, focus_cycle scenarioA (by decide)⟩

/-- C5 (the code at the failing input): `Task.Next` wraps as the claim says: whatever
the task, status done becomes todo, todo becomes inProgress and inProgress becomes done,
the other fields kept.  On the board: after the first resize, I1 has been advanced to
Done and a filter put on Done that shows only I1 (keys "/" and "p"), focus is on Done,
Done holds [D1, I1] and I1, of status done, is selected at index 0.  `MoveToNext`
appends it to To Do with status todo, but removes element 0 of all items of Done, which
is D1: I1 is still in Done, and D1 is in no column. -/
theorem advance_under_filter :
    (∀ u : Task,
      ({ u with status := done } : Task).Next = { u with status := todo } ∧
      ({ u with status := todo } : Task).Next = { u with status := inProgress } ∧
      ({ u with status := inProgress } : Task).Next = { u with status := done }) ∧
    Program.feed plainToolkit Program.start [Msg.WindowSizeMsg 80 24] = some loadedProgram ∧
    filteredDone.map (fun p => (p.world.board.focused, p.world.board.columns)) =
      some (done, [initialToDo, [], [taskD1, { taskI1 with status := done }]]) ∧
    filteredDone.map (fun p =>
        (sliceGet p.world.board.lists done).map fun l => (l.SelectedItem, l.Index)) =
      some (some (some { taskI1 with status := done }, 0)) ∧
    (filteredDone.bind fun p => p.world.board.MoveToNext plainToolkit).map Model.columns =
      some [ initialToDo ++ [{ taskI1 with status := todo }], [],
             [{ taskI1 with status := done }] ] ∧
    (filteredDone.bind fun p => p.world.board.MoveToNext plainToolkit).map
        (fun m => decide (({ taskI1 with status := done } : Task) ∈ m.column done)) =
      some true ∧
    (filteredDone.bind fun p => p.world.board.MoveToNext plainToolkit).map
        (fun m => decide (taskD1 ∈ m.tasks)) = some false := by
  refine ⟨?_, by decide, by decide, by decide, by decide, by decide, by decide⟩
  intro u
  simp [Task.Next, done, todo, inProgress, wrapInt]

/-- Effect of `Model.Update` on a `Task` message with a status among the three kinds,
on a board with three columns: the task is appended to the list of its status. -/
theorem update_task_column (tk : Toolkit) (m : Model) (slot : Form) (t : Task)
    (hlen : m.threeColumns) (hst : validStatus t.status) :
    ∃ m' target, sliceGet m.lists t.status = some target ∧
      Model.Update tk ⟨m, slot⟩ (Msg.task t) = some (⟨m', slot⟩, TeaModel.board, Cmd.widget) ∧
      sliceGet m'.lists t.status = some { target with items := target.items ++ [t] } ∧
      m'.column t.status = m.column t.status ++ [t] ∧
      (∀ k, k ≠ t.status → sliceGet m'.lists k = sliceGet m.lists k) ∧
      (∀ k, k ≠ t.status → m'.column k = m.column k) ∧
      m'.lists.length = 3 ∧
      m'.focused = m.focused ∧ m'.err = m.err ∧ m'.loaded = m.loaded ∧
      m'.quitting = m.quitting := by
  obtain ⟨focused, lists, err, loaded, quitting⟩ := m
  obtain ⟨l0, l1, l2, rfl⟩ := List.length_eq_three.mp hlen
  have hne : ∀ (x : list.Model) (k : Int), k ≠ t.status →
      sliceGet (sliceSet [l0, l1, l2] t.status x) k = sliceGet [l0, l1, l2] k := by
    intro x k hk
    refine sliceGet_sliceSet_ne _ _ _ _ ?_ hk
    rcases hst with h | h | h <;> simp [h, todo, inProgress, done]
  rcases hst with h | h | h
  · refine ⟨⟨focused, sliceSet [l0, l1, l2] t.status (l0.InsertItem l0.Items.length t), err,
      loaded, quitting⟩, l0, by simp [h, todo, sliceGet],
      by simp [Model.Update, h, todo, sliceGet],
      ?_, ?_, fun k hk => hne _ k hk, ?_, by simp [sliceSet], rfl, rfl, rfl, rfl⟩
    · simp [h, todo, sliceGet, sliceSet, list.Model.InsertItem, list.Model.Items]
    · simp [Model.column, h, todo, sliceGet, sliceSet, list.Model.InsertItem, list.Model.Items]
    · intro k hk; simp only [Model.column]; rw [hne _ k hk]
  · refine ⟨⟨focused, sliceSet [l0, l1, l2] t.status (l1.InsertItem l1.Items.length t), err,
      loaded, quitting⟩, l1, by simp [h, inProgress, sliceGet],
      by simp [Model.Update, h, inProgress, sliceGet],
      ?_, ?_, fun k hk => hne _ k hk, ?_, by simp [sliceSet], rfl, rfl, rfl, rfl⟩
    · simp [h, inProgress, sliceGet, sliceSet, list.Model.InsertItem, list.Model.Items]
    · simp [Model.column, h, inProgress, sliceGet, sliceSet, list.Model.InsertItem,
        list.Model.Items]
    · intro k hk; simp only [Model.column]; rw [hne _ k hk]
  · refine ⟨⟨focused, sliceSet [l0, l1, l2] t.status (l2.InsertItem l2.Items.length t), err,
      loaded, quitting⟩, l2, by simp [h, done, sliceGet],
      by simp [Model.Update, h, done, sliceGet],
      ?_, ?_, fun k hk => hne _ k hk, ?_, by simp [sliceSet], rfl, rfl, rfl, rfl⟩
    · simp [h, done, sliceGet, sliceSet, list.Model.InsertItem, list.Model.Items]
    · simp [Model.column, h, done, sliceGet, sliceSet, list.Model.InsertItem, list.Model.Items]
    · intro k hk; simp only [Model.column]; rw [hne _ k hk]

/-- C8: for every board with its three columns loaded and every `Task` message whose
status is todo, inProgress or done, `Model.Update` succeeds, returns the board as the
model, and the board differs only in the list of column `status`: the task is appended
as its last element after the prior elements in their order; the other two lists, focus
and every other field are unchanged. -/
theorem update_task_appends (tk : Toolkit) (m : Model) (slot : Form) (t : Task)
    (hlen : m.threeColumns) (hst : validStatus t.status) :
    ∃ m' target, sliceGet m.lists t.status = some target ∧
      Model.Update tk ⟨m, slot⟩ (Msg.task t) = some (⟨m', slot⟩, TeaModel.board, Cmd.widget) ∧
      sliceGet m'.lists t.status = some { target with items := target.items ++ [t] } ∧
      m'.column t.status = m.column t.status ++ [t] ∧
      (∀ k, k ≠ t.status → sliceGet m'.lists k = sliceGet m.lists k) ∧
      (∀ k, k ≠ t.status → m'.column k = m.column k) ∧
      m'.lists.length = 3 ∧
      m'.focused = m.focused ∧ m'.err = m.err ∧ m'.loaded = m.loaded ∧
      m'.quitting = m.quitting :=
  update_task_column tk m slot t hlen hst

/-- C8 (witness): delivering the task of scenario B to the board of scenario A appends
it to To Do. -/
theorem update_task_appends_witness :
    scenarioA.threeColumns ∧ validStatus (NewTask todo "Fix bug Z" "root cause X").status ∧
    (Model.Update plainToolkit ⟨scenarioA, NewForm todo⟩
        (Msg.task (NewTask todo "Fix bug Z" "root cause X"))).map
      (fun r => r.1.board.columns) =
      some [ initialToDo ++ [NewTask todo "Fix bug Z" "root cause X"],
             initialInProgress, initialDone ] ∧
    ∃ m', Model.Update plainToolkit ⟨scenarioA, NewForm todo⟩
        (Msg.task (NewTask todo "Fix bug Z" "root cause X")) =
          some (⟨m', NewForm todo⟩, TeaModel.board, Cmd.widget) ∧
      m'.column todo = scenarioA.column todo ++ [NewTask todo "Fix bug Z" "root cause X"] ∧
      m'.focused = scenarioA.focused :=
  ⟨by decide, by decide, by decide,
    (update_task_appends plainToolkit scenarioA (NewForm todo)
      (NewTask todo "Fix bug Z" "root cause X") (by decide) (by decide)).elim
      fun m' h => h.elim fun _ h => ⟨m', h.2.1, h.2.2.2.1, h.2.2.2.2.2.2.2.1⟩⟩

/-! ## The form: helper lemmas -/

theorem keyOf_plain (c : Char) (h : 32 ≤ c.toNat ∧ c.toNat ≠ 127) :
    keyOf c = String.singleton c := by
  unfold keyOf
  rw [if_neg (by omega), if_neg (by omega), if_neg (by omega), if_neg (by omega),
    if_neg (by omega), if_neg (by omega)]

theorem typing_plain (pre : List Char) (c : Char) (h : 32 ≤ c.toNat ∧ c.toNat ≠ 127) :
    typing (Msg.KeyMsg (keyOf c)) (String.mk pre) = String.mk (pre ++ [c]) := by
  rw [keyOf_plain c h]
  simp [typing, String.singleton]
  rfl

theorem plainToolkit_entersTitle (t : String) (h : printable t) :
    plainToolkit.entersTitle t := by
  refine ⟨rfl, ?_⟩
  intro pre post c heq
  exact typing_plain pre c (h c (by rw [heq]; simp))

theorem plainToolkit_entersDescription (d : String) (h : printable d) :
    plainToolkit.entersDescription d := by
  intro pre post c heq
  exact typing_plain pre c (h c (by rw [heq]; simp))

/-- Effect of `Form.Update` while the title holds input focus: the world is untouched, the model
returned is a form with the same target column and the same description text, and no
`CreateTask` command is returned; unless the message is enter the title keeps focus and
the description field is unchanged. -/
theorem form_update_title (tk : Toolkit) (f : Form) (w : World) (msg : Msg)
    (h : f.title.Focused = true) :
    ∃ g c, Form.Update tk f w msg = (w, TeaModel.form g, c) ∧
      g.description.Value = f.description.Value ∧ g.focused = f.focused ∧
      (∀ x, c ≠ Cmd.CreateTask x) ∧
      (msg ≠ Msg.KeyMsg "enter" → g.title.Focused = true ∧ g.description = f.description) := by
  have hfw : ∀ m, (Form.forward tk f m).description = f.description ∧
      (Form.forward tk f m).focused = f.focused ∧
      (Form.forward tk f m).title.Focused = true := by
    intro m
    simp only [TextField.Focused] at h
    simp [Form.forward, h, TextField.Focused, textinput.Update]
  cases msg with
  | KeyMsg key =>
    simp only [Form.Update]
    split_ifs with h1 h2
    · exact ⟨f, _, rfl, rfl, rfl, by simp, fun _ => ⟨h, rfl⟩⟩
    · subst h2
      exact ⟨_, _, rfl, rfl, rfl, by simp, fun hne => absurd rfl hne⟩
    · exact ⟨_, _, rfl, by rw [(hfw _).1], (hfw _).2.1, by simp,
        fun _ => ⟨(hfw _).2.2, (hfw _).1⟩⟩
  | nil =>
    exact ⟨_, _, rfl, by rw [(hfw _).1], (hfw _).2.1, by simp, fun _ => ⟨(hfw _).2.2, (hfw _).1⟩⟩
  | WindowSizeMsg a b =>
    exact ⟨_, _, rfl, by rw [(hfw _).1], (hfw _).2.1, by simp, fun _ => ⟨(hfw _).2.2, (hfw _).1⟩⟩
  | task t =>
    exact ⟨_, _, rfl, by rw [(hfw _).1], (hfw _).2.1, by simp, fun _ => ⟨(hfw _).2.2, (hfw _).1⟩⟩
  | other n =>
    exact ⟨_, _, rfl, by rw [(hfw _).1], (hfw _).2.1, by simp, fun _ => ⟨(hfw _).2.2, (hfw _).1⟩⟩
  | FilterMatchesMsg found =>
    exact ⟨_, _, rfl, by rw [(hfw _).1], (hfw _).2.1, by simp, fun _ => ⟨(hfw _).2.2, (hfw _).1⟩⟩

/-- Effect of `Form.Update` while the title does not hold input focus: the board is untouched;
either the message is enter, the board is returned with `CreateTask` bound to the form,
or the model returned is a form with the same title field and target column and no
`CreateTask` command. -/
theorem form_update_description (tk : Toolkit) (f : Form) (w : World) (msg : Msg)
    (h : f.title.Focused = false) :
    (msg = Msg.KeyMsg "enter" ∧
      Form.Update tk f w msg = ({ w with formSlot := f }, TeaModel.board, Cmd.CreateTask f)) ∨
    (msg ≠ Msg.KeyMsg "enter" ∧
      ∃ g c, Form.Update tk f w msg = (w, TeaModel.form g, c) ∧
        g.title = f.title ∧ g.focused = f.focused ∧ (∀ x, c ≠ Cmd.CreateTask x)) := by
  have hfw : ∀ m, (Form.forward tk f m).title = f.title ∧
      (Form.forward tk f m).focused = f.focused := by
    intro m
    simp [Form.forward, h]
  cases msg with
  | KeyMsg key =>
    simp only [Form.Update, h, Bool.false_eq_true, if_false]
    split_ifs with h1 h2
    · refine Or.inr ⟨?_, f, _, rfl, rfl, rfl, by simp⟩
      rcases h1 with h1 | h1 <;> · subst h1; decide
    · subst h2
      exact Or.inl ⟨rfl, rfl⟩
    · refine Or.inr ⟨?_, _, _, rfl, (hfw _).1, (hfw _).2, by simp⟩
      intro hk
      apply h2
      cases hk
      rfl
  | nil => exact Or.inr ⟨by simp, _, _, rfl, (hfw _).1, (hfw _).2, by simp⟩
  | WindowSizeMsg a b => exact Or.inr ⟨by simp, _, _, rfl, (hfw _).1, (hfw _).2, by simp⟩
  | task t => exact Or.inr ⟨by simp, _, _, rfl, (hfw _).1, (hfw _).2, by simp⟩
  | other n => exact Or.inr ⟨by simp, _, _, rfl, (hfw _).1, (hfw _).2, by simp⟩
  | FilterMatchesMsg found => exact Or.inr ⟨by simp, _, _, rfl, (hfw _).1, (hfw _).2, by simp⟩

theorem feed_append (tk : Toolkit) (a b : List Msg) :
    ∀ p : Program, Program.feed tk p (a ++ b) =
      (Program.feed tk p a).bind fun q => Program.feed tk q b := by
  induction a with
  | nil => intro p; rfl
  | cons msg rest ih =>
    intro p
    simp only [List.cons_append, Program.feed]
    cases h : Program.Update tk p msg with
    | none => rfl
    | some r => exact ih r.1

theorem update_form (tk : Toolkit) (w : World) (f : Form) (msg : Msg) :
    Program.Update tk ⟨w, TeaModel.form f⟩ msg =
      some (⟨(Form.Update tk f w msg).1, (Form.Update tk f w msg).2.1⟩,
        (Form.Update tk f w msg).2.2) := rfl

/-- A key that `Form.Update` does not handle itself, on a form in the title phase: the
title field edits its text. -/
theorem form_key_title (tk : Toolkit) (f : Form) (w : World) (key : String)
    (hk : key ≠ "q" ∧ key ≠ "ctrl+c" ∧ key ≠ "enter") (h : f.title.focus = true) :
    Form.Update tk f w (Msg.KeyMsg key) =
      (w, TeaModel.form
        { f with title := ⟨tk.inputEdit (Msg.KeyMsg key) f.title.value, true⟩ },
        Cmd.widget) := by
  simp [Form.Update, hk.1, hk.2.1, hk.2.2, Form.forward, TextField.Focused, h,
    textinput.Update]

/-- A key that `Form.Update` does not handle itself, on a form in the description
phase: the description field edits its text. -/
theorem form_key_description (tk : Toolkit) (f : Form) (w : World) (key : String)
    (hk : key ≠ "q" ∧ key ≠ "ctrl+c" ∧ key ≠ "enter") (h : f.title.focus = false)
    (hd : f.description.focus = true) :
    Form.Update tk f w (Msg.KeyMsg key) =
      (w, TeaModel.form
        { f with description := ⟨tk.areaEdit (Msg.KeyMsg key) f.description.value, true⟩ },
        Cmd.widget) := by
  simp [Form.Update, hk.1, hk.2.1, hk.2.2, Form.forward, TextField.Focused, h, hd,
    textarea.Update]

theorem feed_title_keys (tk : Toolkit) (t : String) (het : tk.entersTitle t) (w : World) :
    ∀ (post pre : List Char) (f : Form), t.data = pre ++ post →
      (∀ c ∈ post, keyOf c ≠ "q" ∧ keyOf c ≠ "ctrl+c" ∧ keyOf c ≠ "enter") →
      f.title = ⟨String.mk pre, true⟩ →
      Program.feed tk ⟨w, TeaModel.form f⟩ (post.map fun c => Msg.KeyMsg (keyOf c)) =
        some ⟨w, TeaModel.form { f with title := ⟨String.mk (pre ++ post), true⟩ }⟩ := by
  intro post
  induction post with
  | nil =>
    intro pre f _ _ hf
    obtain ⟨focused, title, description⟩ := f
    simp only at hf
    subst hf
    simp [Program.feed]
  | cons c post ih =>
    intro pre f heq hk hf
    have hc := hk c (by simp)
    have hk' : ∀ x ∈ post, keyOf x ≠ "q" ∧ keyOf x ≠ "ctrl+c" ∧ keyOf x ≠ "enter" :=
      fun x hx => hk x (by simp [hx])
    have hfoc : f.title.focus = true := by rw [hf]
    have hval : f.title.value = String.mk pre := by rw [hf]
    simp only [List.map_cons, Program.feed, update_form, form_key_title tk f w _ hc hfoc]
    rw [hval, het.2 pre post c heq]
    rw [ih (pre ++ [c]) _ (by rw [heq]; simp) hk' rfl]
    simp

theorem feed_description_keys (tk : Toolkit) (d : String) (hed : tk.entersDescription d)
    (w : World) :
    ∀ (post pre : List Char) (f : Form), d.data = pre ++ post →
      (∀ c ∈ post, keyOf c ≠ "q" ∧ keyOf c ≠ "ctrl+c" ∧ keyOf c ≠ "enter") →
      f.title.focus = false → f.description = ⟨String.mk pre, true⟩ →
      Program.feed tk ⟨w, TeaModel.form f⟩ (post.map fun c => Msg.KeyMsg (keyOf c)) =
        some ⟨w, TeaModel.form
          { f with description := ⟨String.mk (pre ++ post), true⟩ }⟩ := by
  intro post
  induction post with
  | nil =>
    intro pre f _ _ _ hf
    obtain ⟨focused, title, description⟩ := f
    simp only at hf
    subst hf
    simp [Program.feed]
  | cons c post ih =>
    intro pre f heq hk ht hf
    have hc := hk c (by simp)
    have hk' : ∀ x ∈ post, keyOf x ≠ "q" ∧ keyOf x ≠ "ctrl+c" ∧ keyOf x ≠ "enter" :=
      fun x hx => hk x (by simp [hx])
    have hfoc : f.description.focus = true := by rw [hf]
    have hval : f.description.value = String.mk pre := by rw [hf]
    simp only [List.map_cons, Program.feed, update_form,
      form_key_description tk f w _ hc ht hfoc]
    rw [hval, hed pre post c heq]
    rw [ih (pre ++ [c]) { f with description := ⟨String.mk (pre ++ [c]), true⟩ }
      (by rw [heq]; simp) hk' ht rfl]
    simp

/-- A form in the title phase that is fed messages none of which is enter stays in the
title phase, with its description field and target column as they were. -/
theorem feed_title_phase (tk : Toolkit) (w : World) (msgs : List Msg)
    (hno : Msg.KeyMsg "enter" ∉ msgs) :
    ∀ f : Form, f.title.Focused = true →
      ∃ g, Program.feed tk ⟨w, TeaModel.form f⟩ msgs = some ⟨w, TeaModel.form g⟩ ∧
        g.title.Focused = true ∧ g.description = f.description ∧ g.focused = f.focused := by
  induction msgs with
  | nil => intro f h; exact ⟨f, rfl, h, rfl, rfl⟩
  | cons msg rest ih =>
    intro f h
    have hne : msg ≠ Msg.KeyMsg "enter" := fun e => hno (by simp [e])
    have hrest : Msg.KeyMsg "enter" ∉ rest := fun e => hno (by simp [e])
    obtain ⟨g, c, hg, -, hfoc, -, hkeep⟩ := form_update_title tk f w msg h
    obtain ⟨hgt, hgd⟩ := hkeep hne
    obtain ⟨g2, hfeed, h2t, h2d, h2f⟩ := ih hrest g hgt
    refine ⟨g2, ?_, h2t, h2d.trans hgd, h2f.trans hfoc⟩
    simp only [Program.feed, update_form, hg]
    exact hfeed

/-- The key "n" on the board: a fresh form for the focused column becomes the current
model; the board is untouched. -/
theorem update_n (tk : Toolkit) (hnil : tk.inputEdit Msg.nil "" = "") (b : Model)
    (slot : Form) :
    Program.Update tk ⟨⟨b, slot⟩, TeaModel.board⟩ (Msg.KeyMsg "n") =
      some (⟨⟨b, NewForm b.focused⟩, TeaModel.form (NewForm b.focused)⟩, Cmd.widget) := by
  simp [Program.Update, Model.Update, Form.Update, Form.forward, NewForm, TextField.Focused,
    TextField.Focus, TextField.New, textinput.Update, hnil]

/-- The events of a form session up to the last enter: "n", the title typed, enter, the
description typed. -/
theorem feed_session (tk : Toolkit) (b : Model) (slot : Form) (t d : String)
    (ht : typable t) (hd : typable d) (het : tk.entersTitle t)
    (hed : tk.entersDescription d) :
    Program.feed tk ⟨⟨b, slot⟩, TeaModel.board⟩
        (Msg.KeyMsg "n" :: (keystrokes t ++ ([Msg.KeyMsg "enter"] ++ keystrokes d))) =
      some ⟨⟨b, NewForm b.focused⟩, TeaModel.form ⟨b.focused, ⟨t, false⟩, ⟨d, true⟩⟩⟩ := by
  simp only [Program.feed, update_n tk het.1, feed_append, keystrokes]
  rw [feed_title_keys tk t het _ t.data [] (NewForm b.focused) (by simp) ht rfl]
  simp only [Option.bind, List.singleton_append, Program.feed, update_form]
  have henter : Form.Update tk
      { NewForm b.focused with title := ⟨String.mk ([] ++ t.data), true⟩ }
      ⟨b, NewForm b.focused⟩ (Msg.KeyMsg "enter") =
      (⟨b, NewForm b.focused⟩, TeaModel.form ⟨b.focused, ⟨t, false⟩, ⟨"", true⟩⟩, Cmd.Blink) := by
    simp [Form.Update, NewForm, TextField.Focused, TextField.Focus, TextField.Blur,
      TextField.New]
  rw [henter]
  simp only [List.append_eq, List.nil_append]
  rw [feed_description_keys tk d hed _ d.data [] ⟨b.focused, ⟨t, false⟩, ⟨"", true⟩⟩
    (by simp) hd rfl rfl]
  simp

/-! ## Theorems on the form -/

/-- C7 (counterexample): on the board of scenario A.  Title "q": the key "q" in the
title phase returns the quit command and leaves the title empty; carried on, the session
creates a task with title "" instead of "q".  Description with a line break, "a", line
break, "b": the line break is the key "enter", which completes the form after "a"; the
board is the current model again with `CreateTask` bound to the description "a", and
the key "b" goes to the board. -/
theorem form_handoff_counterexample :
    Program.Update plainToolkit ⟨⟨scenarioA, NewForm todo⟩, TeaModel.form (NewForm todo)⟩
        (Msg.KeyMsg "q") =
      some (⟨⟨scenarioA, NewForm todo⟩, TeaModel.form (NewForm todo)⟩, Cmd.Quit) ∧
    Program.feed plainToolkit ⟨⟨scenarioA, NewForm todo⟩, TeaModel.board⟩
        (Msg.KeyMsg "n" :: (keystrokes "q" ++ ([Msg.KeyMsg "enter"] ++ keystrokes "x"))) =
      some ⟨⟨scenarioA, NewForm todo⟩, TeaModel.form ⟨todo, ⟨"", false⟩, ⟨"x", true⟩⟩⟩ ∧
    Program.Update plainToolkit
        ⟨⟨scenarioA, NewForm todo⟩, TeaModel.form ⟨todo, ⟨"", false⟩, ⟨"x", true⟩⟩⟩
        (Msg.KeyMsg "enter") =
      some (⟨⟨scenarioA, ⟨todo, ⟨"", false⟩, ⟨"x", true⟩⟩⟩, TeaModel.board⟩,
        Cmd.CreateTask ⟨todo, ⟨"", false⟩, ⟨"x", true⟩⟩) ∧
    Form.CreateTask ⟨todo, ⟨"", false⟩, ⟨"x", true⟩⟩ ≠
      { ID := 0, title := "q", description := "x", status := todo } ∧
    keystrokes "a\nb" = [Msg.KeyMsg "a", Msg.KeyMsg "enter", Msg.KeyMsg "b"] ∧
    Program.feed plainToolkit ⟨⟨scenarioA, NewForm todo⟩, TeaModel.board⟩
        (Msg.KeyMsg "n" :: (keystrokes "T" ++ ([Msg.KeyMsg "enter"] ++ keystrokes "a\nb"))) =
      some ⟨⟨scenarioA, ⟨todo, ⟨"T", false⟩, ⟨"a", true⟩⟩⟩, TeaModel.board⟩ ∧
    Form.CreateTask ⟨todo, ⟨"T", false⟩, ⟨"a", true⟩⟩ ≠
      { ID := 0, title := "T", description := "a\nb", status := todo } := by
  decide

/-- C7 (amended): for every board b with three columns and focus f among the three
kinds, and all texts t and d whose keys are none of "q", "ctrl+c", "enter" (no character
q, no line break) and which the text fields enter key by key (each key appends its
character), the events "n", the keys of t, enter, the keys of d, enter return the board
as the model together with `CreateTask`, which produces Task(title t, description d,
status f); up to there the board is b, untouched; and once that `Task` message is
delivered the board is b except that the list of column f has the task appended last:
the other lists, focus and the remaining fields are as they were when the form was
opened. -/
theorem form_handoff (tk : Toolkit) (b : Model) (slot : Form)
    (t d : String) (hlen : b.threeColumns) (hfoc : validStatus b.focused)
    (ht : typable t) (hd : typable d) (het : tk.entersTitle t)
    (hed : tk.entersDescription d) :
    ∃ f m',
      Program.feed tk ⟨⟨b, slot⟩, TeaModel.board⟩
          (Msg.KeyMsg "n" :: (keystrokes t ++ ([Msg.KeyMsg "enter"] ++ keystrokes d))) =
        some ⟨⟨b, NewForm b.focused⟩, TeaModel.form f⟩ ∧
      Program.Update tk ⟨⟨b, NewForm b.focused⟩, TeaModel.form f⟩ (Msg.KeyMsg "enter") =
        some (⟨⟨b, f⟩, TeaModel.board⟩, Cmd.CreateTask f) ∧
      f.CreateTask = { ID := 0, title := t, description := d, status := b.focused } ∧
      Program.Update tk ⟨⟨b, f⟩, TeaModel.board⟩ (Msg.task f.CreateTask) =
        some (⟨⟨m', f⟩, TeaModel.board⟩, Cmd.widget) ∧
      m'.column b.focused = b.column b.focused ++ [f.CreateTask] ∧
      (∀ k, k ≠ b.focused → sliceGet m'.lists k = sliceGet b.lists k) ∧
      m'.lists.length = 3 ∧
      m'.focused = b.focused ∧ m'.err = b.err ∧ m'.loaded = b.loaded ∧
      m'.quitting = b.quitting := by
  have hst : validStatus (Form.CreateTask ⟨b.focused, ⟨t, false⟩, ⟨d, true⟩⟩).status := hfoc
  obtain ⟨m', target, -, hup, -, hcol, hother, -, h3, h4, h5, h6, h7⟩ :=
    update_task_column tk b ⟨b.focused, ⟨t, false⟩, ⟨d, true⟩⟩
      (Form.CreateTask ⟨b.focused, ⟨t, false⟩, ⟨d, true⟩⟩) hlen hst
  refine ⟨⟨b.focused, ⟨t, false⟩, ⟨d, true⟩⟩, m',
    feed_session tk b slot t d ht hd het hed, ?_, rfl,
    ?_, hcol, hother, h3, h4, h5, h6, h7⟩
  · simp [Program.Update, Form.Update, TextField.Focused]
  · simp only [Program.Update, hup, Option.map]

/-- C7 (witness): scenario B on the board of scenario A, title "Fix bug Z", description
"root cause X", focus on To Do. -/
theorem form_handoff_witness :
    scenarioA.threeColumns ∧ validStatus scenarioA.focused ∧
    typable "Fix bug Z" ∧ typable "root cause X" ∧
    plainToolkit.entersTitle "Fix bug Z" ∧ plainToolkit.entersDescription "root cause X" ∧
    ∃ f m',
      Program.feed plainToolkit ⟨⟨scenarioA, NewForm todo⟩, TeaModel.board⟩
          (Msg.KeyMsg "n" ::
            (keystrokes "Fix bug Z" ++ ([Msg.KeyMsg "enter"] ++ keystrokes "root cause X"))) =
        some ⟨⟨scenarioA, NewForm scenarioA.focused⟩, TeaModel.form f⟩ ∧
      Program.Update plainToolkit ⟨⟨scenarioA, NewForm scenarioA.focused⟩, TeaModel.form f⟩
          (Msg.KeyMsg "enter") =
        some (⟨⟨scenarioA, f⟩, TeaModel.board⟩, Cmd.CreateTask f) ∧
      f.CreateTask =
        { ID := 0, title := "Fix bug Z", description := "root cause X",
          status := scenarioA.focused } ∧
      Program.Update plainToolkit ⟨⟨scenarioA, f⟩, TeaModel.board⟩ (Msg.task f.CreateTask) =
        some (⟨⟨m', f⟩, TeaModel.board⟩, Cmd.widget) ∧
      m'.column scenarioA.focused = scenarioA.column scenarioA.focused ++ [f.CreateTask] ∧
      (∀ k, k ≠ scenarioA.focused → sliceGet m'.lists k = sliceGet scenarioA.lists k) ∧
      m'.lists.length = 3 ∧
      m'.focused = scenarioA.focused ∧ m'.err = scenarioA.err ∧
      m'.loaded = scenarioA.loaded ∧ m'.quitting = scenarioA.quitting :=
  ⟨by decide, by decide, by decide, by decide,
    plainToolkit_entersTitle "Fix bug Z" (by decide),
    plainToolkit_entersDescription "root cause X" (by decide),
    form_handoff plainToolkit scenarioA (NewForm todo)
      "Fix bug Z" "root cause X" (by decide) (by decide) (by decide) (by decide)
      (plainToolkit_entersTitle "Fix bug Z" (by decide))
      (plainToolkit_entersDescription "root cause X" (by decide))⟩

/-- C9: form linearity.  (1) While the title field holds input focus, `Form.Update` on
any message returns a form whose description text is unchanged.  (2) Hence a form made by
`NewForm` that is fed any messages none of which is enter is still in the title phase
with an empty description.  (3) While the title field does not hold input focus,
`Form.Update` either completes the form (enter: the board is returned with `CreateTask`
bound to the form as it is) or returns a form with the title field unchanged. -/
theorem form_linearity (tk : Toolkit) (f : Form) (w : World) (msg : Msg) :
    (f.title.Focused = true →
      ∃ g c, Form.Update tk f w msg = (w, TeaModel.form g, c) ∧
        g.description.Value = f.description.Value) ∧
    (∀ (column : status) (msgs : List Msg), Msg.KeyMsg "enter" ∉ msgs →
      ∃ g, Program.feed tk ⟨w, TeaModel.form (NewForm column)⟩ msgs =
          some ⟨w, TeaModel.form g⟩ ∧
        g.title.Focused = true ∧ g.description.Value = "") ∧
    (f.title.Focused = false →
      (msg = Msg.KeyMsg "enter" ∧
        Form.Update tk f w msg =
          ({ w with formSlot := f }, TeaModel.board, Cmd.CreateTask f)) ∨
      (∃ g c, Form.Update tk f w msg = (w, TeaModel.form g, c) ∧
        g.title.Value = f.title.Value ∧ g.title.Focused = false)) := by
  refine ⟨?_, ?_, ?_⟩
  · intro h
    obtain ⟨g, c, hg, hd, -⟩ := form_update_title tk f w msg h
    exact ⟨g, c, hg, hd⟩
  · intro column msgs hno
    obtain ⟨g, hg, ht, hd, -⟩ := feed_title_phase tk w msgs hno (NewForm column) rfl
    exact ⟨g, hg, ht, by rw [hd]; rfl⟩
  · intro h
    rcases form_update_description tk f w msg h with ⟨he, hu⟩ | ⟨-, g, c, hg, ht, -⟩
    · exact Or.inl ⟨he, hu⟩
    · exact Or.inr ⟨g, c, hg, by rw [ht], by rw [ht]; exact h⟩

/-- C9 (witness): typing "a" into a fresh form leaves the description empty, and typing
"a" into a form in the description phase leaves the title "Fix bug Z". -/
theorem form_linearity_witness :
    (NewForm todo).title.Focused = true ∧
    (∃ g c, Form.Update plainToolkit (NewForm todo) worldA (Msg.KeyMsg "a") =
        (worldA, TeaModel.form g, c) ∧
      g.description.Value = (NewForm todo).description.Value) ∧
    Msg.KeyMsg "enter" ∉ keystrokes "ab" ∧
    (∃ g, Program.feed plainToolkit ⟨worldA, TeaModel.form (NewForm todo)⟩ (keystrokes "ab") =
        some ⟨worldA, TeaModel.form g⟩ ∧
      g.title.Focused = true ∧ g.description.Value = "") ∧
    describing.title.Focused = false ∧
    ((Msg.KeyMsg "a" = Msg.KeyMsg "enter" ∧
        Form.Update plainToolkit describing worldA (Msg.KeyMsg "a") =
          ({ worldA with formSlot := describing }, TeaModel.board,
            Cmd.CreateTask describing)) ∨
      (∃ g c, Form.Update plainToolkit describing worldA (Msg.KeyMsg "a") =
          (worldA, TeaModel.form g, c) ∧
        g.title.Value = describing.title.Value ∧ g.title.Focused = false)) ∧
    Form.Update plainToolkit describing worldA (Msg.KeyMsg "a") =
      (worldA, TeaModel.form { describing with description := ⟨"a", true⟩ }, Cmd.widget) :=
  ⟨by decide,
    (form_linearity plainToolkit (NewForm todo) worldA (Msg.KeyMsg "a")).1 (by decide),
    by decide,
    (form_linearity plainToolkit (NewForm todo) worldA (Msg.KeyMsg "a")).2.1 todo
      (keystrokes "ab") (by decide),
    by decide,
    (form_linearity plainToolkit describing worldA (Msg.KeyMsg "a")).2.2 (by decide),
    by decide⟩

/-- C10 (counterexample): scenario C.  After "n" and the title "Fix bug Z", the key
"esc" leaves the form as the current model (the key went to the title field), and so do
"q" and "ctrl+c", which return the quit command; and for no toolkit, form, world and
message does `Form.Update` return the board without returning `CreateTask`. -/
theorem form_cancel_counterexample :
    Program.feed plainToolkit ⟨worldA, TeaModel.board⟩
        (Msg.KeyMsg "n" :: (keystrokes "Fix bug Z" ++ [Msg.KeyMsg "esc"])) =
      some ⟨worldA, TeaModel.form ⟨todo, ⟨"Fix bug Z", true⟩, ⟨"", false⟩⟩⟩ ∧
    Form.Update plainToolkit ⟨todo, ⟨"Fix bug Z", true⟩, ⟨"", false⟩⟩ worldA (Msg.KeyMsg "q") =
      (worldA, TeaModel.form ⟨todo, ⟨"Fix bug Z", true⟩, ⟨"", false⟩⟩, Cmd.Quit) ∧
    Form.Update plainToolkit ⟨todo, ⟨"Fix bug Z", true⟩, ⟨"", false⟩⟩ worldA
        (Msg.KeyMsg "ctrl+c") =
      (worldA, TeaModel.form ⟨todo, ⟨"Fix bug Z", true⟩, ⟨"", false⟩⟩, Cmd.Quit) ∧
    ¬ ∃ (tk : Toolkit) (f : Form) (w : World) (msg : Msg),
        (Form.Update tk f w msg).2.1 = TeaModel.board ∧
        ∀ x, (Form.Update tk f w msg).2.2 ≠ Cmd.CreateTask x := by
  refine ⟨by decide, by decide, by decide, ?_⟩
  rintro ⟨tk, f, w, msg, hb, hc⟩
  cases hfoc : f.title.Focused with
  | true =>
    obtain ⟨g, c, hg, -⟩ := form_update_title tk f w msg hfoc
    rw [hg] at hb
    cases hb
  | false =>
    rcases form_update_description tk f w msg hfoc with ⟨-, hu⟩ | ⟨-, g, c, hg, -⟩
    · rw [hu] at hc
      exact hc f rfl
    · rw [hg] at hb
      cases hb

/-- C10 (amended): `Form.Update` has no cancel.  For every form, in either phase, and
every message: the board is left exactly as it was; the board becomes the model again
only by enter in the description phase, which returns `CreateTask`; otherwise the form
stays the model and no `CreateTask` is returned.  In particular "q" and "ctrl+c" return
the quit command with the form unchanged, and "esc" is forwarded to the focused field. -/
theorem form_never_cancels (tk : Toolkit) (f : Form) (w : World) (msg : Msg) :
    (Form.Update tk f w msg).1.board = w.board ∧
    ((msg = Msg.KeyMsg "enter" ∧ f.title.Focused = false ∧
        Form.Update tk f w msg =
          ({ w with formSlot := f }, TeaModel.board, Cmd.CreateTask f)) ∨
      (∃ g c, Form.Update tk f w msg = (w, TeaModel.form g, c) ∧
        ∀ x, c ≠ Cmd.CreateTask x)) ∧
    Form.Update tk f w (Msg.KeyMsg "q") = (w, TeaModel.form f, Cmd.Quit) ∧
    Form.Update tk f w (Msg.KeyMsg "ctrl+c") = (w, TeaModel.form f, Cmd.Quit) ∧
    Form.Update tk f w (Msg.KeyMsg "esc") =
      (w, TeaModel.form (Form.forward tk f (Msg.KeyMsg "esc")), Cmd.widget) := by
  have hmain : (Form.Update tk f w msg).1.board = w.board ∧
      ((msg = Msg.KeyMsg "enter" ∧ f.title.Focused = false ∧
          Form.Update tk f w msg =
            ({ w with formSlot := f }, TeaModel.board, Cmd.CreateTask f)) ∨
        (∃ g c, Form.Update tk f w msg = (w, TeaModel.form g, c) ∧
          ∀ x, c ≠ Cmd.CreateTask x)) := by
    cases hfoc : f.title.Focused with
    | true =>
      obtain ⟨g, c, hg, -, -, hc, -⟩ := form_update_title tk f w msg hfoc
      exact ⟨by rw [hg], Or.inr ⟨g, c, hg, hc⟩⟩
    | false =>
      rcases form_update_description tk f w msg hfoc with ⟨he, hu⟩ | ⟨-, g, c, hg, -, -, hc⟩
      · exact ⟨by rw [hu], Or.inl ⟨he, rfl, hu⟩⟩
      · exact ⟨by rw [hg], Or.inr ⟨g, c, hg, hc⟩⟩
  refine ⟨hmain.1, hmain.2, ?_, ?_, ?_⟩
  · simp [Form.Update]
  · simp [Form.Update]
  · simp only [Form.Update]
    rw [if_neg (by decide), if_neg (by decide)]

/-! ## Target column, phases, quit -/

/-- One step of `Form.Update`: a form that is returned has the target column of the
form that handled the message, and a `CreateTask` that is returned is bound to that
form. -/
theorem form_update_focused (tk : Toolkit) (f : Form) (w : World) (msg : Msg) :
    (∀ g, (Form.Update tk f w msg).2.1 = TeaModel.form g → g.focused = f.focused) ∧
    (∀ x, (Form.Update tk f w msg).2.2 = Cmd.CreateTask x → x = f) := by
  cases hfoc : f.title.Focused with
  | true =>
    obtain ⟨g, c, hg, -, hf, hc, -⟩ := form_update_title tk f w msg hfoc
    rw [hg]
    refine ⟨?_, ?_⟩
    · intro g' hg'
      cases hg'
      exact hf
    · intro x hx
      exact absurd hx (hc x)
  | false =>
    rcases form_update_description tk f w msg hfoc with ⟨-, hu⟩ | ⟨-, g, c, hg, -, hf, hc⟩
    · rw [hu]
      refine ⟨?_, ?_⟩
      · intro g' hg'
        cases hg'
      · intro x hx
        cases hx
        rfl
    · rw [hg]
      refine ⟨?_, ?_⟩
      · intro g' hg'
        cases hg'
        exact hf
      · intro x hx
        exact absurd hx (hc x)

/-- A run of `Form.Update` keeps the target column. -/
theorem feed_focused (tk : Toolkit) (w : World) (msgs : List Msg) :
    ∀ f : Form, (Form.feed tk w f msgs).focused = f.focused := by
  induction msgs with
  | nil => intro f; rfl
  | cons msg rest ih =>
    intro f
    simp only [Form.feed]
    cases h : (Form.Update tk f w msg).2.1 with
    | board => rfl
    | form g =>
      simp only
      rw [ih g]
      exact (form_update_focused tk f w msg).1 g h

/-- A run of `Form.Update` from the description phase keeps the title field. -/
theorem feed_title_kept (tk : Toolkit) (w : World) (msgs : List Msg) :
    ∀ f : Form, f.title.Focused = false → (Form.feed tk w f msgs).title = f.title := by
  induction msgs with
  | nil => intro f _; rfl
  | cons msg rest ih =>
    intro f hf
    simp only [Form.feed]
    rcases form_update_description tk f w msg hf with ⟨-, hu⟩ | ⟨-, g, c, hg, ht, -, -⟩
    · rw [hu]
    · rw [hg]
      simp only
      rw [ih g (by rw [ht]; exact hf), ht]

/-- C11: target column is fixed.  A form made by `NewForm c` has target column c; after
any sequence of messages handled by `Form.Update` its target column is still c, the task
`Form.CreateTask` produces from it has status c, and a `CreateTask` command returned
along the way is bound to a form with target column c.  The key "n" on a board with
focus `m.focused` makes such a form for `m.focused`: whatever it handles afterwards, its
target column and the status of its task are `m.focused`, the board left untouched. -/
theorem target_column_fixed (tk : Toolkit) (w : World) (c : status) (msgs : List Msg)
    (m : Model) (slot : Form) :
    (NewForm c).focused = c ∧
    (Form.feed tk w (NewForm c) msgs).focused = c ∧
    (Form.feed tk w (NewForm c) msgs).CreateTask.status = c ∧
    (∀ msg x, (Form.Update tk (Form.feed tk w (NewForm c) msgs) w msg).2.2 = Cmd.CreateTask x →
      x.focused = c ∧ x.CreateTask.status = c) ∧
    ∃ g, Model.Update tk ⟨m, slot⟩ (Msg.KeyMsg "n") =
        some (⟨m, NewForm m.focused⟩, TeaModel.form g, Cmd.widget) ∧
      g = Form.forward tk (NewForm m.focused) Msg.nil ∧
      g.focused = m.focused ∧
      (Form.feed tk w g msgs).focused = m.focused ∧
      (Form.feed tk w g msgs).CreateTask.status = m.focused := by
  have h1 : (Form.feed tk w (NewForm c) msgs).focused = c := feed_focused tk w msgs (NewForm c)
  have hfw : (Form.forward tk (NewForm m.focused) Msg.nil).focused = m.focused := by
    simp [Form.forward, NewForm, TextField.Focused, TextField.Focus, TextField.New]
  have h2 : (Form.feed tk w (Form.forward tk (NewForm m.focused) Msg.nil) msgs).focused =
      m.focused := by
    rw [feed_focused]; exact hfw
  refine ⟨rfl, h1, h1, ?_, _, ?_, rfl, hfw, h2, h2⟩
  · intro msg x hx
    have hx' := (form_update_focused tk _ w msg).2 x hx
    subst hx'
    exact ⟨h1, h1⟩
  · simp [Model.Update, Form.Update]

/-- C16: form phase is strictly forward.  In the title phase enter moves input focus from
the title field to the description field, keeps the title text and the description text
as they are (whatever the title, the empty one included) and returns `textarea.Blink`,
not `CreateTask`.  In the description phase, on every message, `Form.Update` either
completes the form (enter) or returns a form with the title field unchanged, so without
input focus; and this holds along any sequence of messages. -/
theorem form_phase_forward (tk : Toolkit) (f : Form) (w : World) (msg : Msg)
    (msgs : List Msg) :
    (f.title.Focused = true →
      Form.Update tk f w (Msg.KeyMsg "enter") =
        (w, TeaModel.form
          { f with title := ⟨f.title.Value, false⟩,
                   description := ⟨f.description.Value, true⟩ },
          Cmd.Blink)) ∧
    (f.title.Focused = false →
      ((msg = Msg.KeyMsg "enter" ∧
          Form.Update tk f w msg =
            ({ w with formSlot := f }, TeaModel.board, Cmd.CreateTask f)) ∨
        (∃ g c, Form.Update tk f w msg = (w, TeaModel.form g, c) ∧
          g.title.Focused = false ∧ g.title.Value = f.title.Value)) ∧
      (Form.feed tk w f msgs).title.Focused = false ∧
      (Form.feed tk w f msgs).title.Value = f.title.Value) := by
  refine ⟨?_, ?_⟩
  · intro h
    simp [Form.Update, h, TextField.Blur, TextField.Focus, TextField.Value]
  · intro h
    refine ⟨?_, ?_, ?_⟩
    · rcases form_update_description tk f w msg h with ⟨he, hu⟩ | ⟨-, g, c, hg, ht, -, -⟩
      · exact Or.inl ⟨he, hu⟩
      · exact Or.inr ⟨g, c, hg, by rw [ht]; exact h, by rw [ht]⟩
    · rw [feed_title_kept tk w msgs f h]; exact h
    · rw [feed_title_kept tk w msgs f h]

/-- C16 (witness): enter on a fresh form with an empty title, and a key on a form in the
description phase. -/
theorem form_phase_forward_witness :
    (NewForm todo).title.Focused = true ∧
    Form.Update plainToolkit (NewForm todo) worldA (Msg.KeyMsg "enter") =
      (worldA, TeaModel.form
        { NewForm todo with title := ⟨(NewForm todo).title.Value, false⟩,
                            description := ⟨(NewForm todo).description.Value, true⟩ },
        Cmd.Blink) ∧
    Form.Update plainToolkit (NewForm todo) worldA (Msg.KeyMsg "enter") =
      (worldA, TeaModel.form ⟨todo, ⟨"", false⟩, ⟨"", true⟩⟩, Cmd.Blink) ∧
    describing.title.Focused = false ∧
    (((Msg.KeyMsg "a" = Msg.KeyMsg "enter" ∧
          Form.Update plainToolkit describing worldA (Msg.KeyMsg "a") =
            ({ worldA with formSlot := describing }, TeaModel.board,
              Cmd.CreateTask describing)) ∨
        (∃ g c, Form.Update plainToolkit describing worldA (Msg.KeyMsg "a") =
            (worldA, TeaModel.form g, c) ∧
          g.title.Focused = false ∧ g.title.Value = describing.title.Value)) ∧
      (Form.feed plainToolkit worldA describing (keystrokes "ab")).title.Focused = false ∧
      (Form.feed plainToolkit worldA describing (keystrokes "ab")).title.Value =
        describing.title.Value) :=
  ⟨by decide,
    (form_phase_forward plainToolkit (NewForm todo) worldA (Msg.KeyMsg "a")
      (keystrokes "ab")).1 (by decide),
    by decide, by decide,
    (form_phase_forward plainToolkit describing worldA (Msg.KeyMsg "a")
      (keystrokes "ab")).2 (by decide)⟩

/-- C17: `Model.Next` and `Model.Previous` change only focus.  Both are total; the result
is the board with a new `focused`, so the lists (items, order, cursor), `err`, `loaded`
and `quitting` are those of the board before. -/
theorem focus_only (m : Model) :
    m.Next = { m with focused := m.Next.focused } ∧
    m.Previous = { m with focused := m.Previous.focused } ∧
    m.Next.lists = m.lists ∧ m.Next.columns = m.columns ∧ m.Next.err = m.err ∧
    m.Next.loaded = m.loaded ∧ m.Next.quitting = m.quitting ∧
    m.Previous.lists = m.lists ∧ m.Previous.columns = m.columns ∧ m.Previous.err = m.err ∧
    m.Previous.loaded = m.loaded ∧ m.Previous.quitting = m.quitting := by
  refine ⟨?_, ?_, ?_, ?_, ?_, ?_, ?_, ?_, ?_, ?_, ?_, ?_⟩ <;>
    first
    | (unfold Model.Next; split <;> rfl)
    | (unfold Model.Previous; split <;> rfl)

/-- C18: quit is valid from either view.  On the board, for every board state, "q" and
"ctrl+c" return `tea.Quit` (the board sets `quitting`, its lists and focus stay).  On
the form, in either phase, "q" and "ctrl+c" return `tea.Quit` with the form as it was:
the key is not forwarded, so title text and description text are unchanged, and the
world, the board with its columns included, is unchanged. -/
theorem quit_either_view (tk : Toolkit) (w : World) (f : Form) :
    Model.Update tk w (Msg.KeyMsg "q") =
      some ({ w with board := { w.board with quitting := true } }, TeaModel.board, Cmd.Quit) ∧
    Model.Update tk w (Msg.KeyMsg "ctrl+c") =
      some ({ w with board := { w.board with quitting := true } }, TeaModel.board, Cmd.Quit) ∧
    ({ w.board with quitting := true } : Model).columns = w.board.columns ∧
    ({ w.board with quitting := true } : Model).focused = w.board.focused ∧
    Form.Update tk f w (Msg.KeyMsg "q") = (w, TeaModel.form f, Cmd.Quit) ∧
    Form.Update tk f w (Msg.KeyMsg "ctrl+c") = (w, TeaModel.form f, Cmd.Quit) := by
  refine ⟨?_, ?_, rfl, rfl, ?_, ?_⟩
  · simp [Model.Update]
  · simp [Model.Update]
  · simp [Form.Update]
  · simp [Form.Update]

/-- C11 (witness): a form for In Progress that handles "ab", enter, "cd" produces a
task of status inProgress. -/
theorem target_column_fixed_witness :
    (Form.feed plainToolkit worldA (NewForm inProgress)
        (keystrokes "ab" ++ ([Msg.KeyMsg "enter"] ++ keystrokes "cd"))).CreateTask =
      { ID := 0, title := "ab", description := "cd", status := inProgress } ∧
    (Form.feed plainToolkit worldA (NewForm inProgress)
        (keystrokes "ab" ++ ([Msg.KeyMsg "enter"] ++ keystrokes "cd"))).focused = inProgress :=
  ⟨by decide,
    (target_column_fixed plainToolkit worldA inProgress
      (keystrokes "ab" ++ ([Msg.KeyMsg "enter"] ++ keystrokes "cd")) scenarioA
      (NewForm todo)).2.1⟩

/-! ## Focus validity and runtime aborts -/

theorem updateFocused_focused (tk : Toolkit) (m m' : Model) (msg : Msg)
    (h : m.updateFocused tk msg = some m') : m'.focused = m.focused := by
  unfold Model.updateFocused at h
  split at h
  · cases h
  · cases h; rfl

theorem moveToNext_focused (tk : Toolkit) (m m' : Model) (h : m.MoveToNext tk = some m') :
    m'.focused = m.focused := by
  unfold Model.MoveToNext at h
  split at h
  · cases h
  · split at h
    · cases h; rfl
    · split at h
      · cases h
      · simp only at h
        split at h
        · cases h
        · cases h; rfl

theorem Next_valid (m : Model) (h : validStatus m.focused) : validStatus m.Next.focused := by
  rw [Next_focused m h]; exact validStatus_cyclicNext _ h

theorem Previous_valid (m : Model) (h : validStatus m.focused) :
    validStatus m.Previous.focused := by
  rw [Previous_focused m h]; exact validStatus_cyclicPrev _ h

/-- Every completed `Model.Update` keeps the focus among the three column kinds. -/
theorem update_focus_valid (tk : Toolkit) (m : Model) (slot : Form) (msg : Msg)
    (r : World × TeaModel × Cmd) (h : validStatus m.focused)
    (hr : Model.Update tk ⟨m, slot⟩ msg = some r) : validStatus r.1.board.focused := by
  cases msg with
  | nil =>
    simp only [Model.Update] at hr
    obtain ⟨m1, hm1, rfl⟩ := Option.map_eq_some'.mp hr
    simp only [updateFocused_focused tk _ _ _ hm1]
    exact h
  | WindowSizeMsg Width Height =>
    simp only [Model.Update] at hr
    obtain ⟨m1, hm1, rfl⟩ := Option.map_eq_some'.mp hr
    simp only [updateFocused_focused tk _ _ _ hm1]
    exact h
  | KeyMsg key =>
    simp only [Model.Update] at hr
    split_ifs at hr
    · cases hr; exact h
    · obtain ⟨m1, hm1, rfl⟩ := Option.map_eq_some'.mp hr
      simp only [updateFocused_focused tk _ _ _ hm1]
      exact Previous_valid m h
    · obtain ⟨m1, hm1, rfl⟩ := Option.map_eq_some'.mp hr
      simp only [updateFocused_focused tk _ _ _ hm1]
      exact Next_valid m h
    · cases hr; exact h
    · cases hr; exact h
    · obtain ⟨m1, hm1, rfl⟩ := Option.map_eq_some'.mp hr
      simp only [updateFocused_focused tk _ _ _ hm1]
      exact h
  | task t =>
    simp only [Model.Update] at hr
    split at hr
    · cases hr
    · cases hr; exact h
  | other tag =>
    simp only [Model.Update] at hr
    obtain ⟨m1, hm1, rfl⟩ := Option.map_eq_some'.mp hr
    simp only [updateFocused_focused tk _ _ _ hm1]
    exact h
  | FilterMatchesMsg found =>
    simp only [Model.Update] at hr
    obtain ⟨m1, hm1, rfl⟩ := Option.map_eq_some'.mp hr
    simp only [updateFocused_focused tk _ _ _ hm1]
    exact h

/-- C12: focus validity.  In every board state reachable from `New()` through events
handled by `Model.Update` (keys, resize, `Task` delivery and any other message), through
`Next`, `Previous` and a completed `MoveToNext`, `focused` is todo, inProgress or done. -/
theorem focus_valid (tk : Toolkit) (m : Model) (h : Model.FromNew tk m) :
    m.focused = todo ∨ m.focused = inProgress ∨ m.focused = done := by
  induction h with
  | start => exact Or.inl rfl
  | update _ hr ih => exact update_focus_valid tk _ _ _ _ ih hr
  | moveToNext _ hm ih => rw [moveToNext_focused tk _ _ hm]; exact ih
  | next _ ih => exact Next_valid _ ih
  | previous _ ih => exact Previous_valid _ ih

/-- C12 (witness): from `New()`, a resize and then the key "h" give a board with focus
on Done. -/
theorem focus_valid_witness :
    Model.FromNew plainToolkit
      { scenarioA with focused := done } ∧
    (({ scenarioA with focused := done } : Model).focused = todo ∨
      ({ scenarioA with focused := done } : Model).focused = inProgress ∨
      ({ scenarioA with focused := done } : Model).focused = done) :=
  have h1 : Model.FromNew plainToolkit scenarioA :=
    @Model.FromNew.update plainToolkit New (NewForm todo) (Msg.WindowSizeMsg 80 24)
      (⟨scenarioA, NewForm todo⟩, TeaModel.board, Cmd.widget)
      Model.FromNew.start (by decide)
  have h2 : Model.FromNew plainToolkit { scenarioA with focused := done } :=
    @Model.FromNew.update plainToolkit scenarioA (NewForm todo) (Msg.KeyMsg "h")
      (⟨{ scenarioA with focused := done }, NewForm todo⟩, TeaModel.board, Cmd.widget)
      h1 (by decide)
  ⟨h2, focus_valid plainToolkit _ h2⟩

/-- On a loaded board `MoveToNext` completes, and the board stays a loaded board, when
the selected item of the focused list, if any, has a status among the three column kinds
(as every item of a loaded board has, and the matches of a filter are items of the
list). -/
theorem moveToNext_total (tk : Toolkit) (m : Model) (h : m.Inv)
    (hsel : ∀ fl t, sliceGet m.lists m.focused = some fl → fl.SelectedItem = some t →
      validStatus t.status) :
    ∃ m', m.MoveToNext tk = some m' ∧ m'.Inv := by
  have key : ∃ m', m.MoveToNext tk = some m' := by
    obtain ⟨hlen, hfoc, -⟩ := h
    obtain ⟨focused, lists, err, loaded, quitting⟩ := m
    obtain ⟨l0, l1, l2, rfl⟩ := List.length_eq_three.mp hlen
    simp only at hfoc hsel
    have hget : ∃ fl, sliceGet [l0, l1, l2] focused = some fl := by
      rcases hfoc with rfl | rfl | rfl <;> simp [sliceGet, todo, inProgress, done]
    obtain ⟨fl, hfl⟩ := hget
    cases hs : fl.SelectedItem with
    | none => exact ⟨_, moveToNext_none tk _ fl hfl hs⟩
    | some t =>
      obtain ⟨ID, title, description, st⟩ := t
      have hv := hsel fl _ hfl hs
      simp only at hv
      unfold Model.MoveToNext
      simp only [hfl, hs]
      rcases hv with rfl | rfl | rfl <;>
        simp [sliceGet, sliceSet, todo, inProgress, done, Task.Next, wrapInt]
  obtain ⟨m', hm⟩ := key
  exact ⟨m', hm, inv_MoveToNext tk m m' h hm⟩

/-- On a loaded board `Model.Update` completes on every message, a `Task` message being
one whose status is among the three column kinds. -/
theorem update_total (tk : Toolkit) (m : Model) (slot : Form) (msg : Msg) (h : m.Inv)
    (hmsg : ∀ t, msg = Msg.task t → validStatus t.status) :
    ∃ r, Model.Update tk ⟨m, slot⟩ msg = some r := by
  cases msg with
  | nil =>
    obtain ⟨m1, hm1, -⟩ := updateFocused_spec tk m Msg.nil h
    exact ⟨(⟨m1, slot⟩, TeaModel.board, Cmd.widget),
      by simp only [Model.Update, hm1, Option.map]⟩
  | WindowSizeMsg Width Height =>
    obtain ⟨m1, hm1, -⟩ := updateFocused_spec tk (m.initList Width Height)
      (Msg.WindowSizeMsg Width Height) (inv_initList m Width Height h.2.1)
    exact ⟨(⟨m1, slot⟩, TeaModel.board, Cmd.widget),
      by simp only [Model.Update, hm1, Option.map]⟩
  | KeyMsg key =>
    obtain ⟨m1, hm1, -⟩ := updateFocused_spec tk m (Msg.KeyMsg key) h
    obtain ⟨m2, hm2, -⟩ := updateFocused_spec tk m.Previous (Msg.KeyMsg key) (inv_Previous m h)
    obtain ⟨m3, hm3, -⟩ := updateFocused_spec tk m.Next (Msg.KeyMsg key) (inv_Next m h)
    simp only [Model.Update, hm1, hm2, hm3, Option.map]
    split_ifs <;> exact ⟨_, rfl⟩
  | task t =>
    obtain ⟨m', target, -, hu, -⟩ := update_task_column tk m slot t h.1 (hmsg t rfl)
    exact ⟨_, hu⟩
  | other tag =>
    obtain ⟨m1, hm1, -⟩ := updateFocused_spec tk m (Msg.other tag) h
    exact ⟨(⟨m1, slot⟩, TeaModel.board, Cmd.widget),
      by simp only [Model.Update, hm1, Option.map]⟩
  | FilterMatchesMsg found =>
    obtain ⟨m1, hm1, -⟩ := updateFocused_spec tk m ((Msg.FilterMatchesMsg found)) h
    exact ⟨(⟨m1, slot⟩, TeaModel.board, Cmd.widget),
      by simp only [Model.Update, hm1, Option.map]⟩

/-- C13 (the code at the failing input): at program start the board is `New()`, without
lists.  For every toolkit, `Model.Update` aborts on the keys "j", "right" and "left" and
on a `Task` message; on "enter" it returns `MoveToNext`, and running that command
aborts, as does `Model.MoveToNext` itself. -/
theorem update_aborts_unloaded :
    Model.FromNew plainToolkit startWorld.board ∧
    (∀ tk : Toolkit,
      Model.Update tk startWorld (Msg.KeyMsg "j") = none ∧
      Model.Update tk startWorld (Msg.KeyMsg "right") = none ∧
      Model.Update tk startWorld (Msg.KeyMsg "left") = none ∧
      Model.Update tk startWorld (Msg.task taskB) = none ∧
      Model.Update tk startWorld (Msg.KeyMsg "enter") =
        some (startWorld, TeaModel.board, Cmd.MoveToNext)) ∧
    (∀ tk : Toolkit, Cmd.run tk Cmd.MoveToNext startWorld = none) ∧
    (∀ tk : Toolkit, New.MoveToNext tk = none) := by
  refine ⟨Model.FromNew.start, ?_, fun tk => rfl, fun tk => rfl⟩
  intro tk
  refine ⟨?_, ?_, ?_, ?_, ?_⟩ <;>
    simp [Model.Update, startWorld, Program.start, New, Model.updateFocused, sliceGet,
      Model.Next, Model.Previous, done, todo, wrapInt, taskB, NewTask]

/-! ## Persistence of tasks -/

theorem updateFocused_tasks (tk : Toolkit) (m m1 : Model) (msg : Msg) (h : m.Inv)
    (hm : m.updateFocused tk msg = some m1) : m1.tasks = m.tasks := by
  obtain ⟨m2, h2, -, -, hcol, -⟩ := updateFocused_spec tk m msg h
  rw [h2] at hm
  cases hm
  simp only [Model.tasks, hcol]

theorem Next_tasks (m : Model) : m.Next.tasks = m.tasks := by
  simp only [Model.tasks, Model.columns, Next_lists]

theorem Previous_tasks (m : Model) : m.Previous.tasks = m.tasks := by
  simp only [Model.tasks, Model.columns, Previous_lists]

/-- On a loaded board a completed `Model.Update` on a key message leaves the tasks of
the board as they are. -/
theorem update_key_tasks (tk : Toolkit) (m : Model) (slot : Form) (key : String)
    (r : World × TeaModel × Cmd) (h : m.Inv)
    (hr : Model.Update tk ⟨m, slot⟩ (Msg.KeyMsg key) = some r) :
    r.1.board.tasks = m.tasks := by
  simp only [Model.Update] at hr
  split_ifs at hr
  · cases hr; rfl
  · obtain ⟨m1, hm1, rfl⟩ := Option.map_eq_some'.mp hr
    simp only [updateFocused_tasks tk _ m1 _ (inv_Previous m h) hm1, Previous_tasks]
  · obtain ⟨m1, hm1, rfl⟩ := Option.map_eq_some'.mp hr
    simp only [updateFocused_tasks tk _ m1 _ (inv_Next m h) hm1, Next_tasks]
  · cases hr; rfl
  · cases hr; rfl
  · obtain ⟨m1, hm1, rfl⟩ := Option.map_eq_some'.mp hr
    simp only [updateFocused_tasks tk _ m1 _ h hm1]

/-- On a loaded board a completed `Model.Update` on a message other than a resize keeps
every task of the board. -/
theorem update_keeps_tasks (tk : Toolkit) (m : Model) (slot : Form) (msg : Msg)
    (r : World × TeaModel × Cmd) (h : m.Inv)
    (hres : ∀ width height, msg ≠ Msg.WindowSizeMsg width height)
    (hr : Model.Update tk ⟨m, slot⟩ msg = some r) :
    ∀ t ∈ m.tasks, t ∈ r.1.board.tasks := by
  intro t ht
  cases msg with
  | nil =>
    simp only [Model.Update] at hr
    obtain ⟨m1, hm1, rfl⟩ := Option.map_eq_some'.mp hr
    simp only [updateFocused_tasks tk _ m1 _ h hm1]
    exact ht
  | WindowSizeMsg Width Height => exact absurd rfl (hres Width Height)
  | KeyMsg key =>
    rw [update_key_tasks tk m slot key r h hr]
    exact ht
  | task u =>
    obtain ⟨-, -, -, -, l0, l1, l2, hl, hb⟩ := update_task_spec tk m slot u r h.1 hr
    rw [hb]
    simp only [Model.tasks, Model.columns, hl] at ht ⊢
    split_ifs <;>
      simp only [List.map_cons, List.map_nil, List.flatten_cons, List.flatten_nil,
        list.Model.Items, List.mem_append, List.append_nil] at ht ⊢ <;>
      tauto
  | other tag =>
    simp only [Model.Update] at hr
    obtain ⟨m1, hm1, rfl⟩ := Option.map_eq_some'.mp hr
    simp only [updateFocused_tasks tk _ m1 _ h hm1]
    exact ht
  | FilterMatchesMsg found =>
    simp only [Model.Update] at hr
    obtain ⟨m1, hm1, rfl⟩ := Option.map_eq_some'.mp hr
    simp only [updateFocused_tasks tk _ m1 _ h hm1]
    exact ht

/-- C14 (the code at the failing input): the board of scenario A with the task of
scenario B delivered holds that task last in To Do; a resize re-runs `initList`, and
afterwards the columns are those of the initial board and the task is in no column. -/
theorem resize_destroys_task :
    worldB.board.columns = [initialToDo ++ [taskB], initialInProgress, initialDone] ∧
    worldB.board.loaded = true ∧
    taskB ∈ worldB.board.tasks ∧
    (Model.Update plainToolkit worldB (Msg.WindowSizeMsg 100 30)).map
        (fun r => r.1.board.columns) =
      some [initialToDo, initialInProgress, initialDone] ∧
    (Model.Update plainToolkit worldB (Msg.WindowSizeMsg 100 30)).map
        (fun r => decide (taskB ∈ r.1.board.tasks)) = some false := by
  decide

/-! ## Task IDs -/

theorem ids_three (focused : status) (l0 l1 l2 : list.Model) (err : Option String)
    (loaded quitting : Bool) :
    Model.ids ⟨focused, [l0, l1, l2], err, loaded, quitting⟩ =
      l0.items.map Task.ID ++ (l1.items.map Task.ID ++ l2.items.map Task.ID) := by
  simp [Model.ids, Model.tasks, Model.columns, list.Model.Items]

/-- Delivering a task adds its ID to the IDs on the board. -/
theorem deliver_ids (tk : Toolkit) (m : Model) (slot : Form) (t : Task)
    (r : World × TeaModel × Cmd) (hlen : m.threeColumns)
    (hr : Model.Update tk ⟨m, slot⟩ (Msg.task t) = some r) :
    r.1.board.ids.Perm (m.ids ++ [t.ID]) := by
  obtain ⟨-, -, -, -, l0, l1, l2, hl, hb⟩ := update_task_spec tk m slot t r hlen hr
  obtain ⟨focused, lists, err, loaded, quitting⟩ := m
  simp only at hl hb
  subst hl
  rw [hb, List.perm_iff_count]
  intro x
  split_ifs <;>
    simp only [ids_three, List.count_append, List.count_cons, List.count_nil, List.map_append,
      List.map_cons, List.map_nil] <;>
    omega

/-- C15 (counterexample): the initial board of `initList` already holds three tasks with
ID 1, one at the head of each column; and two form-created tasks both carry ID 0. -/
theorem unique_ids_counterexample :
    Model.Grown plainToolkit scenarioA ∧
    scenarioA.ids = [1, 2, 3, 1, 1] ∧
    ¬ scenarioA.uniqueIDs ∧
    (scenarioA.column todo).map Task.ID = [1, 2, 3] ∧
    (scenarioA.column inProgress).map Task.ID = [1] ∧
    (scenarioA.column done).map Task.ID = [1] ∧
    (NewTask todo "a" "b").ID = (NewTask done "c" "d").ID :=
  ⟨Model.Grown.init 80 24, by decide, by decide, by decide, by decide, by decide, by decide⟩

/-- C15 (amended): task IDs are not assigned, so they are not unique.  `NewTask` sets
no ID, so any two form-created tasks carry the same ID, and `Task.Next` keeps the ID of
a task.  On every board with three columns, delivering two form-created tasks (statuses
among the three column kinds) completes, the IDs on the board afterwards are the IDs
before and the IDs of the two tasks, and two tasks on the board have the same ID. -/
theorem ids_not_assigned (tk : Toolkit) (m : Model) (slot : Form) (s1 s2 : status)
    (title1 description1 title2 description2 : String)
    (hlen : m.threeColumns) (h1 : validStatus s1) (h2 : validStatus s2) :
    (NewTask s1 title1 description1).ID = (NewTask s2 title2 description2).ID ∧
    (∀ t : Task, t.Next.ID = t.ID) ∧
    ∃ m1 m2,
      Model.Update tk ⟨m, slot⟩ (Msg.task (NewTask s1 title1 description1)) =
        some (⟨m1, slot⟩, TeaModel.board, Cmd.widget) ∧
      Model.Update tk ⟨m1, slot⟩ (Msg.task (NewTask s2 title2 description2)) =
        some (⟨m2, slot⟩, TeaModel.board, Cmd.widget) ∧
      m2.ids.Perm (m.ids ++
        [(NewTask s1 title1 description1).ID, (NewTask s2 title2 description2).ID]) ∧
      ¬ m2.uniqueIDs := by
  refine ⟨rfl, ?_, ?_⟩
  · intro t
    unfold Task.Next
    split <;> rfl
  · obtain ⟨m1, -, -, hu1, -, -, -, -, hl1, -⟩ :=
      update_task_column tk m slot (NewTask s1 title1 description1) hlen h1
    obtain ⟨m2, -, -, hu2, -⟩ :=
      update_task_column tk m1 slot (NewTask s2 title2 description2) hl1 h2
    have p1 := deliver_ids tk m slot _ _ hlen hu1
    have p2 := deliver_ids tk m1 slot _ _ hl1 hu2
    have p : m2.ids.Perm (m.ids ++
        [(NewTask s1 title1 description1).ID, (NewTask s2 title2 description2).ID]) := by
      refine p2.trans ?_
      have := List.Perm.append_right [(NewTask s2 title2 description2).ID] p1
      simpa using this
    refine ⟨m1, m2, hu1, hu2, p, ?_⟩
    intro hu
    have hc := List.nodup_iff_count_le_one.mp hu 0
    rw [p.count_eq] at hc
    simp [NewTask, List.count_append, List.count_cons] at hc

/-- C15 (witness): on the board of scenario A a task for To Do and a task for Done are
delivered. -/
theorem ids_not_assigned_witness :
    scenarioA.threeColumns ∧ validStatus todo ∧ validStatus done ∧
    ((NewTask todo "a" "b").ID = (NewTask done "c" "d").ID ∧
    (∀ t : Task, t.Next.ID = t.ID) ∧
    ∃ m1 m2,
      Model.Update plainToolkit ⟨scenarioA, NewForm todo⟩ (Msg.task (NewTask todo "a" "b")) =
        some (⟨m1, NewForm todo⟩, TeaModel.board, Cmd.widget) ∧
      Model.Update plainToolkit ⟨m1, NewForm todo⟩ (Msg.task (NewTask done "c" "d")) =
        some (⟨m2, NewForm todo⟩, TeaModel.board, Cmd.widget) ∧
      m2.ids.Perm (scenarioA.ids ++ [(NewTask todo "a" "b").ID, (NewTask done "c" "d").ID]) ∧
      ¬ m2.uniqueIDs) :=
  ⟨by decide, by decide, by decide,
    ids_not_assigned plainToolkit scenarioA (NewForm todo) todo done "a" "b" "c" "d"
      (by decide) (by decide) (by decide)⟩

/-! ## Deferred advance -/

end TaskGophers
